import Mathlib

/-!
# kfkp: a pool of Kafka producers

Shallow embedding of `pool.go` and a verification of its acquire / release
protocol.

* The counters `running`, `waiting`, `idling` are Go `int32`; they are
  embedded as `Int` and every `++` / `--` goes through `wrapInt32`.
* `p.mu` is not data: every function below is one critical section of the
  source, and the interleavings of goroutines are the interleavings of these
  critical sections (`Kfkp.step`).
* `GetConn` blocks on `<-ch` in the middle of its body.  It is embedded as two
  segments: `GetConn` (from the call to the first return or the first park)
  and `GetConn.wake` (from the wake-up to the next return or park).
* A channel is embedded as a natural number (its identity); `make` takes the
  next unused number and `close` records the channel in the list `closed`.
* `ClosePool` takes the result of `closeProducer` on each handle as a function
  and returns, next to the pool and the error, the handles it was called on.
* For the mutex itself, `GetConn.lockTrace` lists the statements of one call of
  `GetConn` in the order in which the goroutine runs them.
-/

namespace Kfkp

/-! ## Data model -/

/-- Go `int32` arithmetic: the result of an operation is reduced to the range
`[-2^31, 2^31)`. -/
def wrapInt32 (x : Int) : Int := (x + 2147483648) % 4294967296 - 2147483648

/-- The `producer` of the source: an id and a `kafka.Writer`, of which the
address and topic are kept. -/
structure producer where
  producerID : Nat
  writerAddr : String
  writerTopic : String
deriving DecidableEq, Repr

/-- The `poolInfo` struct. -/
structure poolInfo where
  initCapacity : Int
  maxCapacity : Int
  maxIdle : Int
  BrokerAddress : String
  Topic : String
  running : Int
  waiting : Int
  idling : Int
deriving DecidableEq, Repr

/-- The `Pool` struct: `poolInfo` is embedded, `producers` is the idle list. -/
structure Pool extends poolInfo where
  producers : List producer
deriving DecidableEq, Repr

/-- Modelled from the spec: the wait queue type (`newWaitQueue` and its struct
are declared outside `pool.go`); the spec describes it as an ordered collection
of one-shot wake tokens consumed in arrival order.  `pool.go` uses the field
`waiters`, a slice of channels. -/
structure waitQueue where
  waiters : List Nat
deriving DecidableEq, Repr

/-- Modelled from the spec: `newWaitQueue()` (declared outside `pool.go`)
returns a queue without tickets. -/
def newWaitQueue : waitQueue := { waiters := [] }

/-- The collaborators called by `initialize` and `addProducer`:
`getKafkaTopics(addr)` and `generateSonyflakeID()`; the latter is indexed by
the number of calls made before. -/
structure Env where
  getKafkaTopics : String → Except String (List String)
  generateSonyflakeID : Nat → Except String Nat

/-- Modelled from the spec: the configuration options (the `Option` type is
declared outside `pool.go`); the spec enumerates initCapacity, maxCapacity,
maxIdle, brokerAddress and the resource name, each overriding a default. -/
inductive PoolOption where
  | WithInitCapacity (n : Int)
  | WithMaxCapacity (n : Int)
  | WithMaxIdle (n : Int)
  | WithBrokerAddress (a : String)
  | WithTopic (t : String)

/-- Effect of one option on the `poolInfo` under construction. -/
def PoolOption.apply : PoolOption → poolInfo → poolInfo
  | .WithInitCapacity n, i => { i with initCapacity := n }
  | .WithMaxCapacity n, i => { i with maxCapacity := n }
  | .WithMaxIdle n, i => { i with maxIdle := n }
  | .WithBrokerAddress a, i => { i with BrokerAddress := a }
  | .WithTopic t, i => { i with Topic := t }

/-! ## Construction -/

/-- The method `Pool.addProducer`, given the result of its call of
`generateSonyflakeID`. -/
def Pool.addProducer (p : Pool) (uid : Except String Nat) : Except String Pool :=
  match uid with
  | .error err => .error err
  | .ok uid =>
    .ok { p with
      producers := p.producers ++
        [{ producerID := uid, writerAddr := p.BrokerAddress, writerTopic := p.Topic }]
      idling := wrapInt32 (p.idling + 1) }

/-- The loop `for i = 0; i < initCapacity; i++` of `initialize` with `n`
iterations left, `i` being the loop index. -/
def Pool.addInitial (env : Env) : Nat → Nat → Pool → Except String Pool
  | 0, _, p => .ok p
  | n + 1, i, p =>
    match p.addProducer (env.generateSonyflakeID i) with
    | .error err => .error err
    | .ok p' => Pool.addInitial env n (i + 1) p'

/-- The method `Pool.initialize` of the source: the idle list is reset, the
topic is looked up, and `initCapacity` handles are added (none when
`initCapacity` is negative). -/
def Pool.initialise (env : Env) (p : Pool) : Except String Pool :=
  let p := { p with producers := [] }
  match env.getKafkaTopics p.BrokerAddress with
  | .error err => .error err
  | .ok kafkaTopics =>
    if p.Topic ∈ kafkaTopics then
      Pool.addInitial env p.initCapacity.toNat 0 p
    else
      .error ("topic: " ++ p.Topic ++ " , has not been created")

/-- The default `poolInfo` of `NewPool`. -/
def defaultPoolInfo : poolInfo :=
  { initCapacity := 10, maxCapacity := 100, maxIdle := 50,
    BrokerAddress := "localhost:9092", Topic := "bus_1",
    running := 0, waiting := 0, idling := 0 }

/-- The constructor `NewPool(opts...)`: the options are applied to the default
`poolInfo` in order, then the pool is initialised; on error no pool is
returned. -/
def NewPool (env : Env) (opts : List PoolOption) : Except String Pool :=
  let info := opts.foldl (fun i opt => opt.apply i) defaultPoolInfo
  Pool.initialise env { info with producers := [] }

/-! ## Acquire and release -/

/-- How a segment of `GetConn` ends: it returns `pd, nil`, or it parks on the
channel `ch` with the mutex released, or the goroutine panics on
`p.producers[0]` (index out of range). -/
inductive GetOutcome where
  | returned (p : Pool) (wq : waitQueue) (pd : producer)
  | blocked (p : Pool) (wq : waitQueue) (ch : Nat)
  | panic
deriving DecidableEq, Repr

/-- The code from the label `DoubleCheck` to the next return or park; `ch` is
the channel that `make` would return. -/
def GetConn.DoubleCheck (p : Pool) (wq : waitQueue) (ch : Nat) : GetOutcome :=
  if p.idling ≤ 0 then
    .blocked { p with waiting := wrapInt32 (p.waiting + 1) }
      { wq with waiters := wq.waiters ++ [ch] } ch
  else
    match p.producers with
    | [] => .panic
    | pd :: rest =>
      .returned { p with
        producers := rest
        idling := wrapInt32 (p.idling - 1)
        running := wrapInt32 (p.running + 1) } wq pd

/-- The method `Pool.GetConn` from its call to its first return or park. -/
def GetConn (p : Pool) (wq : waitQueue) (ch : Nat) : GetOutcome :=
  GetConn.DoubleCheck p wq ch

/-- The method `Pool.GetConn` from the return of `<-ch` to the next return or park; `ch`
is the channel that `make` would return on the retry. -/
def GetConn.wake (p : Pool) (wq : waitQueue) (ch : Nat) : GetOutcome :=
  if p.idling > 0 then
    match p.producers with
    | [] => .panic
    | pd :: rest => .returned { p with producers := rest } wq pd
  else
    GetConn.DoubleCheck p wq ch

/-- How `PutConn` ends: it returns `nil`, or the goroutine panics (on
`wq.waiters[0]`, or on the `close` of a closed channel). -/
inductive PutOutcome where
  | ok (p : Pool) (wq : waitQueue) (closed : List Nat)
  | panic
deriving DecidableEq, Repr

/-- The method `Pool.PutConn`; `closed` lists the channels closed so far, in the order of
their `close`. -/
def PutConn (p : Pool) (wq : waitQueue) (closed : List Nat) (pd : producer) : PutOutcome :=
  if p.waiting > 0 then
    match wq.waiters with
    | [] => .panic
    | ch :: rest =>
      if ch ∈ closed then .panic
      else
        .ok { p with
          waiting := wrapInt32 (p.waiting - 1)
          producers := p.producers ++ [pd]
          idling := wrapInt32 (p.idling + 1) }
          { wq with waiters := rest } (closed ++ [ch])
  else
    .ok { p with
      producers := p.producers ++ [pd]
      idling := wrapInt32 (p.idling + 1) } wq closed

/-! ## One pool and its callers -/

/-- What a caller observed, in the order of the critical sections. -/
inductive Event where
  | acquired (c : Nat) (pd : producer)
  | blocked (c : Nat) (ch : Nat)
  | claimed (c : Nat) (pd : producer)
  | requeued (c : Nat) (ch : Nat)
  | released (c : Nat) (pd : producer)
deriving DecidableEq, Repr

/-- A process with one pool: the pool, the package-level wait queue, the
channels, and for each caller what it holds and whether it is parked.  `held`,
`parked` and `log` are bookkeeping of the callers, not state of the source. -/
structure Sys where
  pool : Pool
  wq : waitQueue
  closed : List Nat
  nextChan : Nat
  held : List (Nat × producer)
  parked : List (Nat × Nat)
  log : List Event
deriving DecidableEq, Repr

/-- The critical sections a caller `c` can run: call `GetConn`, resume in
`GetConn` after its channel was closed, call `PutConn pd`. -/
inductive Action where
  | get (c : Nat)
  | wake (c : Nat)
  | put (c : Nat) (pd : producer)
deriving DecidableEq, Repr

/-- Result of a step: the next state, a panic of the source, or `disabled`
when the caller cannot run this action now (it is parked, its channel is
still open, or it does not hold the handle it wants to release).  A panic ends
the schedule; the index panics of the source happen before any write to the
pool. -/
inductive Outcome where
  | ok (s : Sys)
  | panic
  | disabled
deriving DecidableEq, Repr

/-- The state right after `NewPool` returned `p`. -/
def Sys.init (p : Pool) : Sys :=
  { pool := p, wq := newWaitQueue, closed := [], nextChan := 0,
    held := [], parked := [], log := [] }

/-- Caller `c` calls `GetConn`. -/
def stepGet (s : Sys) (c : Nat) : Outcome :=
  if c ∈ s.parked.map Prod.fst then .disabled
  else
    match GetConn s.pool s.wq s.nextChan with
    | .returned p wq pd =>
      .ok { s with pool := p, wq := wq, held := s.held ++ [(c, pd)],
                   log := s.log ++ [.acquired c pd] }
    | .blocked p wq ch =>
      .ok { s with pool := p, wq := wq, nextChan := s.nextChan + 1,
                   parked := s.parked ++ [(c, ch)],
                   log := s.log ++ [.blocked c ch] }
    | .panic => .panic

/-- Caller `c`, parked on a channel that has been closed, resumes in
`GetConn`. -/
def stepWake (s : Sys) (c : Nat) : Outcome :=
  match s.parked.lookup c with
  | none => .disabled
  | some ch =>
    if ch ∈ s.closed then
      match GetConn.wake s.pool s.wq s.nextChan with
      | .returned p wq pd =>
        .ok { s with pool := p, wq := wq, held := s.held ++ [(c, pd)],
                     parked := s.parked.filter (fun e => e.1 ≠ c),
                     log := s.log ++ [.claimed c pd] }
      | .blocked p wq ch' =>
        .ok { s with pool := p, wq := wq, nextChan := s.nextChan + 1,
                     parked := s.parked.filter (fun e => e.1 ≠ c) ++ [(c, ch')],
                     log := s.log ++ [.requeued c ch'] }
      | .panic => .panic
    else .disabled

/-- Caller `c` calls `PutConn pd` for a handle it holds. -/
def stepPut (s : Sys) (c : Nat) (pd : producer) : Outcome :=
  if c ∈ s.parked.map Prod.fst then .disabled
  else if (c, pd) ∈ s.held then
    match PutConn s.pool s.wq s.closed pd with
    | .ok p wq closed =>
      .ok { s with pool := p, wq := wq, closed := closed,
                   held := s.held.erase (c, pd),
                   log := s.log ++ [.released c pd] }
    | .panic => .panic
  else .disabled

/-- One critical section. -/
def step (s : Sys) : Action → Outcome
  | .get c => stepGet s c
  | .wake c => stepWake s c
  | .put c pd => stepPut s c pd

/-- A schedule: the actions are run in order, up to the first one that does not
yield a state. -/
def run (s : Sys) : List Action → Outcome
  | [] => .ok s
  | a :: as =>
    match step s a with
    | .ok s' => run s' as
    | .panic => .panic
    | .disabled => .disabled

/-! ## Concrete environment used in the examples -/

/-- A broker that knows the topic `bus_1`, and an id generator that returns
`0, 1, 2, ...`. -/
def demoEnv : Env :=
  { getKafkaTopics := fun _ => .ok ["bus_1"]
    generateSonyflakeID := fun i => .ok i }

/-- The handle with id `i` made by `NewPool` with the default address and
topic. -/
def demoHandle (i : Nat) : producer :=
  { producerID := i, writerAddr := "localhost:9092", writerTopic := "bus_1" }

/-- A pool as `NewPool` builds it with the default address and topic: the
capacities, the three counters and the idle list. -/
def demoPool (init max running waiting idling : Int) (producers : List producer) : Pool :=
  { initCapacity := init, maxCapacity := max, maxIdle := 50,
    BrokerAddress := "localhost:9092", Topic := "bus_1",
    running := running, waiting := waiting, idling := idling,
    producers := producers }

/-! ## Fairness as the specification states it -/

/-- Callers of the `claimed` events of a log, in order: the blocked callers
that were granted a handle. -/
def claimers : List Event → List Nat
  | [] => []
  | .claimed c _ :: es => c :: claimers es
  | _ :: es => claimers es

/-- Callers of the `blocked` events of a log, in order: the callers in the
order in which they first blocked. -/
def firstBlocked : List Event → List Nat
  | [] => []
  | .blocked c _ :: es => c :: firstBlocked es
  | _ :: es => firstBlocked es

/-- FIFO fairness of waiters, on the executions of the pool `p`: blocked
callers are granted handles in the order in which they first blocked, and a
call of `GetConn` returns a handle at once only when no caller is blocked. -/
def FifoFair (p : Pool) : Prop :=
  ∀ (acts : List Action) (s : Sys), run (Sys.init p) acts = .ok s →
    claimers s.log <+: firstBlocked s.log ∧
    ∀ (c : Nat) (s' : Sys) (pd : producer), step s (.get c) = .ok s' →
      s'.log = s.log ++ [.acquired c pd] → s.parked = []

/-! ## Invariants -/

/-- The ids of the handles held by callers followed by the ids of the idle
handles contain no id twice. -/
def Excl (s : Sys) : Prop :=
  (s.held.map (fun e => e.2.producerID) ++
    s.pool.producers.map (fun pd => pd.producerID)).Nodup

/-- The handles held by callers together with the idle handles are the handles
`hs`, each as often as in `hs`. -/
def Conserved (hs : List producer) (s : Sys) : Prop :=
  (s.held.map Prod.snd ++ s.pool.producers).Perm hs

/-- The channels closed so far, in the order of their `close`, followed by the
queued ones are the channels in the order of their creation. -/
def TicketOrder (s : Sys) : Prop :=
  s.closed ++ s.wq.waiters = List.range s.nextChan

/-- The parked callers whose ticket has been fired and who have not resumed
yet. -/
def firedParked (s : Sys) : List (Nat × Nat) :=
  s.parked.filter (fun e => decide (e.2 ∈ s.closed))

/-- Whether an event is the re-queue of a woken waiter. -/
def Event.isRequeue : Event → Bool
  | .requeued _ _ => true
  | _ => false

/-- Whether an action is a new call of `GetConn`. -/
def Action.isGet : Action → Bool
  | .get _ => true
  | _ => false

/-- Number of `PutConn` calls in a schedule. -/
def releases : List Action → Nat
  | [] => 0
  | .put _ _ :: as => releases as + 1
  | _ :: as => releases as

/-- State of a pool on which `m` callers blocked before any release, after
`j` releases and any number of wake steps, no new `GetConn` call having
started: every release so far fired a ticket, the fired waiters that have not
resumed are covered by the idle list, and no waiter had to queue again. -/
def DrainInv (m j : Nat) (s : Sys) : Prop :=
  TicketOrder s ∧ j ≤ m ∧
  s.pool.waiting = ((m - j : Nat) : Int) ∧ s.wq.waiters.length = m - j ∧
  s.pool.idling = (j : Int) ∧
  (firedParked s).length ≤ s.pool.producers.length ∧ s.pool.producers.length ≤ j ∧
  (s.parked.map Prod.snd).Nodup ∧
  (∀ e ∈ s.log, e.isRequeue = false) ∧
  Excl s

/-- The counter `waiting` is the length of the wait queue, as an `int32`. -/
def WaitInv (s : Sys) : Prop :=
  s.pool.waiting = wrapInt32 (s.wq.waiters.length : Int)

/-- The `poolInfo` that `NewPool(opts...)` hands to the pool: the options
applied in order to the default values. -/
def configured (opts : List PoolOption) : poolInfo :=
  opts.foldl (fun i opt => opt.apply i) defaultPoolInfo

/-- Number of calls of `generateSonyflakeID` made by the loop of `initialize`
with `n` iterations left: one per `addProducer`, the failing call included. -/
def Pool.addInitialCalls (env : Env) : Nat → Nat → Pool → Nat
  | 0, _, _ => 0
  | n + 1, i, p =>
    match p.addProducer (env.generateSonyflakeID i) with
    | .error _ => 1
    | .ok p' => 1 + Pool.addInitialCalls env n (i + 1) p'

/-- Number of calls of `generateSonyflakeID` made by `NewPool(opts...)`:
`initialize` returns before the loop when the topic lookup fails or the topic
is unknown. -/
def NewPool.idCalls (env : Env) (opts : List PoolOption) : Nat :=
  let info := opts.foldl (fun i opt => opt.apply i) defaultPoolInfo
  match env.getKafkaTopics info.BrokerAddress with
  | .error _ => 0
  | .ok kafkaTopics =>
    if info.Topic ∈ kafkaTopics then
      Pool.addInitialCalls env info.initCapacity.toNat 0 { info with producers := [] }
    else 0

/-! ## Shutdown -/

/-- The loop `for _, pd := range p.producers` of `ClosePool`: the handles on
which `closeProducer` was called, in order, and the error that ended the loop,
if any.  The method `closeProducer` is declared outside `pool.go`; `closer pd`
is the error it returns for `pd` (`none` for `nil`). -/
def closeLoop (closer : producer → Option String) :
    List producer → List producer × Option String
  | [] => ([], none)
  | pd :: rest =>
    match closer pd with
    | some err => ([pd], some err)
    | none => (pd :: (closeLoop closer rest).1, (closeLoop closer rest).2)

/-- The method `Pool.ClosePool`: the pool afterwards, the handles on which
`closeProducer` was called, and the error returned (`none` for `nil`).  The
idle list is reset only when the loop ran to its end. -/
def ClosePool (p : Pool) (closer : producer → Option String) :
    Pool × List producer × Option String :=
  match closeLoop closer p.producers with
  | (called, some err) => (p, called, some err)
  | (called, none) => ({ p with producers := [] }, called, none)

/-- A call of `ClosePool` in the one-pool process. -/
def Sys.close (s : Sys) (closer : producer → Option String) :
    Sys × List producer × Option String :=
  ({ s with pool := (ClosePool s.pool closer).1 },
    (ClosePool s.pool closer).2.1, (ClosePool s.pool closer).2.2)

/-! ## The mutex along the paths of `GetConn` -/

/-- The fields of the pool that `GetConn` reads and writes. -/
inductive Field where
  | producers
  | idling
  | running
  | waiting
deriving DecidableEq, Repr

/-- What one goroutine does in `GetConn`, statement by statement: operations
on `p.mu` and `wq.mu`, reads and writes of pool fields, the append to
`wq.waiters`, the receive `<-ch`, a `return`, and a panic on `p.producers[0]`.
The deferred `p.mu.Unlock()` is the `unlock` that follows `ret` or `panic`. -/
inductive LockEv where
  | lock
  | unlock
  | wqLock
  | wqUnlock
  | read (f : Field)
  | write (f : Field)
  | wqAppend
  | recv
  | ret
  | panic
deriving DecidableEq, Repr

/-- What the goroutine finds in the pool at a moment when it holds the mutex:
the value of `idling` and whether the idle list has an element. -/
structure Obs where
  idling : Int
  nonempty : Bool
deriving DecidableEq, Repr

/-- The statements from `if p.idling <= 0` (taken) to `<-ch`. -/
def GetConn.parkEvs : List LockEv :=
  [.wqLock, .wqAppend, .read .waiting, .write .waiting, .wqUnlock, .unlock, .recv]

/-- The fast path after the test `p.idling <= 0` failed. -/
def GetConn.fastEvs (o : Obs) : List LockEv :=
  if o.nonempty then
    [.read .producers, .read .producers, .write .producers,
     .read .idling, .write .idling, .read .running, .write .running, .ret, .unlock]
  else [.read .producers, .panic, .unlock]

/-- The branch `if p.idling > 0` (taken) after a wake-up. -/
def GetConn.claimEvs (o : Obs) : List LockEv :=
  if o.nonempty then
    [.read .producers, .read .producers, .write .producers, .ret, .unlock]
  else [.read .producers, .panic, .unlock]

/-- The statements of `GetConn` from the label `DoubleCheck` on, in a pool
where the goroutine finds `o` at the label and finds `wakes` at its successive
wake-ups; the path ends at a `return`, at a panic, or blocked in `<-ch` when
there is no further wake-up. -/
def GetConn.DoubleCheckEvs : Obs → List Obs → List LockEv
  | o, [] =>
    .read .idling :: (if o.idling ≤ 0 then GetConn.parkEvs else GetConn.fastEvs o)
  | o, o' :: rest =>
    .read .idling ::
      (if o.idling ≤ 0 then
        GetConn.parkEvs ++ [.lock, .read .idling] ++
          (if o'.idling > 0 then GetConn.claimEvs o'
           else GetConn.DoubleCheckEvs o' rest)
      else GetConn.fastEvs o)

/-- The statements of one call of `GetConn`, from `p.mu.Lock()` on. -/
def GetConn.lockTrace (o : Obs) (wakes : List Obs) : List LockEv :=
  .lock :: GetConn.DoubleCheckEvs o wakes

/-- The lock discipline of a path, `held` telling whether the goroutine holds
`p.mu` before the first statement: `Lock` only when not held, `Unlock` only
when held, every field access with the mutex held, a `return` or panic with
the mutex held and followed by the deferred `Unlock` only, the receive with
the mutex not held, and the mutex not held at the end. -/
def wellLocked : Bool → List LockEv → Bool
  | held, [] => !held
  | held, .lock :: es => !held && wellLocked true es
  | held, .unlock :: es => held && wellLocked false es
  | held, .read _ :: es => held && wellLocked held es
  | held, .write _ :: es => held && wellLocked held es
  | held, .ret :: es => held && decide (es = [.unlock]) && wellLocked held es
  | held, .panic :: es => held && decide (es = [.unlock]) && wellLocked held es
  | held, .recv :: es => !held && wellLocked held es
  | held, .wqLock :: es => wellLocked held es
  | held, .wqUnlock :: es => wellLocked held es
  | held, .wqAppend :: es => wellLocked held es

/-! ## Inversion of the steps -/

theorem wrapInt32_of_range {x : Int} (h1 : -2147483648 ≤ x) (h2 : x < 2147483648) :
    wrapInt32 x = x := by
  unfold wrapInt32
  omega

theorem step_get_inv {s s' : Sys} {c : Nat} (h : step s (.get c) = .ok s') :
    c ∉ s.parked.map Prod.fst ∧
    ((0 < s.pool.idling ∧ ∃ pd rest, s.pool.producers = pd :: rest ∧
        s' = { s with
          pool := { s.pool with
            producers := rest
            idling := wrapInt32 (s.pool.idling - 1)
            running := wrapInt32 (s.pool.running + 1) }
          held := s.held ++ [(c, pd)]
          log := s.log ++ [.acquired c pd] }) ∨
     (s.pool.idling ≤ 0 ∧
        s' = { s with
          pool := { s.pool with waiting := wrapInt32 (s.pool.waiting + 1) }
          wq := { waiters := s.wq.waiters ++ [s.nextChan] }
          nextChan := s.nextChan + 1
          parked := s.parked ++ [(c, s.nextChan)]
          log := s.log ++ [.blocked c s.nextChan] })) := by
  simp only [step] at h
  unfold stepGet at h
  split_ifs at h with hc
  refine ⟨hc, ?_⟩
  unfold GetConn GetConn.DoubleCheck at h
  by_cases hi : s.pool.idling ≤ 0
  · right
    rw [if_pos hi] at h
    simp only [Outcome.ok.injEq] at h
    exact ⟨hi, h.symm⟩
  · left
    rw [if_neg hi] at h
    refine ⟨by omega, ?_⟩
    cases hp : s.pool.producers with
    | nil => rw [hp] at h; simp at h
    | cons pd rest =>
      rw [hp] at h
      simp only [Outcome.ok.injEq] at h
      exact ⟨pd, rest, rfl, h.symm⟩

theorem step_wake_inv {s s' : Sys} {c : Nat} (h : step s (.wake c) = .ok s') :
    ∃ ch, s.parked.lookup c = some ch ∧ ch ∈ s.closed ∧
    ((0 < s.pool.idling ∧ ∃ pd rest, s.pool.producers = pd :: rest ∧
        s' = { s with
          pool := { s.pool with producers := rest }
          held := s.held ++ [(c, pd)]
          parked := s.parked.filter (fun e => e.1 ≠ c)
          log := s.log ++ [.claimed c pd] }) ∨
     (s.pool.idling ≤ 0 ∧
        s' = { s with
          pool := { s.pool with waiting := wrapInt32 (s.pool.waiting + 1) }
          wq := { waiters := s.wq.waiters ++ [s.nextChan] }
          nextChan := s.nextChan + 1
          parked := s.parked.filter (fun e => e.1 ≠ c) ++ [(c, s.nextChan)]
          log := s.log ++ [.requeued c s.nextChan] })) := by
  simp only [step] at h
  unfold stepWake at h
  cases hl : s.parked.lookup c with
  | none => rw [hl] at h; simp at h
  | some ch =>
    rw [hl] at h
    simp only at h
    split_ifs at h with hc
    refine ⟨ch, rfl, hc, ?_⟩
    unfold GetConn.wake GetConn.DoubleCheck at h
    by_cases hi : s.pool.idling > 0
    · left
      rw [if_pos hi] at h
      refine ⟨hi, ?_⟩
      cases hp : s.pool.producers with
      | nil => rw [hp] at h; simp at h
      | cons pd rest =>
        rw [hp] at h
        simp only [Outcome.ok.injEq] at h
        exact ⟨pd, rest, rfl, h.symm⟩
    · right
      have hi' : s.pool.idling ≤ 0 := by omega
      rw [if_neg hi, if_pos hi'] at h
      simp only [Outcome.ok.injEq] at h
      exact ⟨hi', h.symm⟩

theorem step_put_inv {s s' : Sys} {c : Nat} {pd : producer}
    (h : step s (.put c pd) = .ok s') :
    c ∉ s.parked.map Prod.fst ∧ (c, pd) ∈ s.held ∧
    ((0 < s.pool.waiting ∧ ∃ ch rest, s.wq.waiters = ch :: rest ∧ ch ∉ s.closed ∧
        s' = { s with
          pool := { s.pool with
            waiting := wrapInt32 (s.pool.waiting - 1)
            producers := s.pool.producers ++ [pd]
            idling := wrapInt32 (s.pool.idling + 1) }
          wq := { waiters := rest }
          closed := s.closed ++ [ch]
          held := s.held.erase (c, pd)
          log := s.log ++ [.released c pd] }) ∨
     (s.pool.waiting ≤ 0 ∧
        s' = { s with
          pool := { s.pool with
            producers := s.pool.producers ++ [pd]
            idling := wrapInt32 (s.pool.idling + 1) }
          held := s.held.erase (c, pd)
          log := s.log ++ [.released c pd] })) := by
  simp only [step] at h
  unfold stepPut at h
  split_ifs at h with hc hh
  refine ⟨hc, hh, ?_⟩
  unfold PutConn at h
  by_cases hw : s.pool.waiting > 0
  · left
    rw [if_pos hw] at h
    refine ⟨hw, ?_⟩
    cases hq : s.wq.waiters with
    | nil => rw [hq] at h; simp at h
    | cons ch rest =>
      rw [hq] at h
      simp only at h
      split_ifs at h with hcl
      simp only [Outcome.ok.injEq] at h
      exact ⟨ch, rest, rfl, hcl, h.symm⟩
  · right
    rw [if_neg hw] at h
    simp only [Outcome.ok.injEq] at h
    exact ⟨by omega, h.symm⟩

theorem run_nil (s : Sys) : run s [] = .ok s := rfl

theorem run_cons_ok {s s' : Sys} {a : Action} {as : List Action}
    (h : run s (a :: as) = .ok s') : ∃ s1, step s a = .ok s1 ∧ run s1 as = .ok s' := by
  unfold run at h
  cases hs : step s a with
  | ok s1 => rw [hs] at h; exact ⟨s1, rfl, h⟩
  | panic => rw [hs] at h; simp at h
  | disabled => rw [hs] at h; simp at h

/-- A property kept by every step holds after every schedule. -/
theorem run_invariant (P : Sys → Prop)
    (hstep : ∀ s a s', P s → step s a = .ok s' → P s') :
    ∀ (acts : List Action) (s s' : Sys), P s → run s acts = .ok s' → P s' := by
  intro acts
  induction acts with
  | nil =>
    intro s s' hP h
    rw [run_nil] at h
    cases h
    exact hP
  | cons a as ih =>
    intro s s' hP h
    obtain ⟨s1, h1, h2⟩ := run_cons_ok h
    exact ih s1 s' (hstep s a s1 hP h1) h2

theorem foldl_apply_counters (opts : List PoolOption) (i : poolInfo) :
    (opts.foldl (fun i opt => opt.apply i) i).running = i.running ∧
    (opts.foldl (fun i opt => opt.apply i) i).waiting = i.waiting ∧
    (opts.foldl (fun i opt => opt.apply i) i).idling = i.idling := by
  induction opts generalizing i with
  | nil => exact ⟨rfl, rfl, rfl⟩
  | cons o os ih =>
    rw [List.foldl_cons]
    obtain ⟨h1, h2, h3⟩ := ih (o.apply i)
    rw [h1, h2, h3]
    cases o <;> exact ⟨rfl, rfl, rfl⟩

theorem addInitial_spec (env : Env) :
    ∀ (n i : Nat) (p p' : Pool), Pool.addInitial env n i p = .ok p' →
      p'.running = p.running ∧ p'.waiting = p.waiting ∧
      p'.initCapacity = p.initCapacity ∧ p'.maxCapacity = p.maxCapacity ∧
      p'.producers.length = p.producers.length + n ∧
      (0 ≤ p.idling → p.idling + n ≤ 2147483647 → p'.idling = p.idling + n) := by
  intro n
  induction n with
  | zero =>
    intro i p p' h
    simp only [Pool.addInitial, Except.ok.injEq] at h
    subst h
    simp
  | succ n ih =>
    intro i p p' h
    simp only [Pool.addInitial] at h
    cases hg : env.generateSonyflakeID i with
    | error e => rw [hg] at h; simp [Pool.addProducer] at h
    | ok uid =>
      rw [hg] at h
      simp only [Pool.addProducer] at h
      obtain ⟨h1, h2, h3, h4, h5, h6⟩ := ih _ _ _ h
      refine ⟨h1, h2, h3, h4, ?_, ?_⟩
      · rw [h5]; simp; omega
      · intro h0 hb
        simp only at h6
        have hw : wrapInt32 (p.idling + 1) = p.idling + 1 :=
          wrapInt32_of_range (by omega) (by push_cast at hb; omega)
        rw [hw] at h6
        rw [h6 (by omega) (by push_cast at hb ⊢; omega)]
        push_cast
        omega

theorem NewPool_spec {env : Env} {opts : List PoolOption} {p : Pool}
    (h : NewPool env opts = .ok p) :
    p.running = 0 ∧ p.waiting = 0 ∧
    p.producers.length = p.initCapacity.toNat ∧
    (p.initCapacity ≤ 2147483647 → p.idling = p.initCapacity.toNat) := by
  unfold NewPool Pool.initialise at h
  simp only at h
  obtain ⟨c1, c2, c3⟩ := foldl_apply_counters opts defaultPoolInfo
  cases hk : env.getKafkaTopics
      (opts.foldl (fun i opt => opt.apply i) defaultPoolInfo).BrokerAddress with
  | error e => rw [hk] at h; simp at h
  | ok topics =>
    rw [hk] at h
    simp only at h
    split_ifs at h with ht
    obtain ⟨h1, h2, h3, _, h5, h6⟩ := addInitial_spec env _ _ _ _ h
    simp only at h1 h2 h3 h5 h6
    rw [c1] at h1
    rw [c2] at h2
    rw [c3] at h6
    refine ⟨h1, h2, ?_, ?_⟩
    · rw [h5, h3]; simp
    · intro hb
      rw [h3]
      have hd : defaultPoolInfo.idling = 0 := rfl
      have := h6 (by rw [hd]) (by rw [hd]; omega)
      rw [this, hd]
      simp

/-! ## Exclusivity -/

theorem perm_cons_erase_held {l : List (Nat × producer)} {a : Nat × producer}
    (h : a ∈ l) : l.Perm (a :: l.erase a) := by
  induction l with
  | nil => simp at h
  | cons b l ih =>
    rw [List.erase_cons]
    by_cases hb : b = a
    · subst hb
      simp
    · have hne : (b == a) = false := by simpa using hb
      rw [hne]
      simp only [Bool.false_eq_true, if_false]
      have hm : a ∈ l := by
        rcases List.mem_cons.mp h with h | h
        · exact absurd h.symm hb
        · exact h
      exact ((ih hm).cons b).trans (List.Perm.swap a b _)

theorem Excl_step (s : Sys) (a : Action) (s' : Sys) (hE : Excl s)
    (h : step s a = .ok s') : Excl s' := by
  unfold Excl at hE ⊢
  cases a with
  | get c =>
    obtain ⟨_, h | h⟩ := step_get_inv h
    · obtain ⟨_, pd, rest, hp, rfl⟩ := h
      rw [hp] at hE
      simpa using hE
    · obtain ⟨_, rfl⟩ := h
      exact hE
  | wake c =>
    obtain ⟨ch, _, _, h | h⟩ := step_wake_inv h
    · obtain ⟨_, pd, rest, hp, rfl⟩ := h
      rw [hp] at hE
      simpa using hE
    · obtain ⟨_, rfl⟩ := h
      exact hE
  | put c pd =>
    obtain ⟨_, hh, h⟩ := step_put_inv h
    have hperm : (s.held.map (fun e => e.2.producerID)).Perm
        (pd.producerID :: (s.held.erase (c, pd)).map (fun e => e.2.producerID)) :=
      by simpa using (perm_cons_erase_held hh).map (fun e => e.2.producerID)
    have key : ((s.held.erase (c, pd)).map (fun e => e.2.producerID) ++
        (s.pool.producers ++ [pd]).map (fun pd => pd.producerID)).Nodup := by
      refine (List.Perm.nodup_iff ?_).mp hE
      rw [List.map_append, List.map_singleton]
      refine (hperm.append_right _).trans ?_
      rw [List.cons_append]
      refine List.perm_middle.symm.trans ?_
      refine List.Perm.append_left _ ?_
      exact (List.perm_append_singleton _ _).symm
    rcases h with h | h
    · obtain ⟨_, ch, rest, _, _, rfl⟩ := h
      exact key
    · obtain ⟨_, rfl⟩ := h
      exact key

theorem Conserved_step (hs : List producer) (s : Sys) (a : Action) (s' : Sys)
    (hC : Conserved hs s) (h : step s a = .ok s') : Conserved hs s' := by
  unfold Conserved at hC ⊢
  cases a with
  | get c =>
    obtain ⟨_, h | h⟩ := step_get_inv h
    · obtain ⟨_, pd, rest, hp, rfl⟩ := h
      rw [hp] at hC
      simpa using hC
    · obtain ⟨_, rfl⟩ := h
      exact hC
  | wake c =>
    obtain ⟨ch, _, _, h | h⟩ := step_wake_inv h
    · obtain ⟨_, pd, rest, hp, rfl⟩ := h
      rw [hp] at hC
      simpa using hC
    · obtain ⟨_, rfl⟩ := h
      exact hC
  | put c pd =>
    obtain ⟨_, hh, h⟩ := step_put_inv h
    have hperm : (s.held.map Prod.snd).Perm
        (pd :: (s.held.erase (c, pd)).map Prod.snd) := by
      simpa using (perm_cons_erase_held hh).map Prod.snd
    have key : ((s.held.erase (c, pd)).map Prod.snd ++ (s.pool.producers ++ [pd])).Perm hs := by
      refine List.Perm.trans ?_ hC
      refine List.Perm.trans ?_ (hperm.append_right _).symm
      rw [List.cons_append]
      refine List.Perm.trans ?_ List.perm_middle
      refine List.Perm.append_left _ ?_
      exact List.perm_append_singleton _ _
    rcases h with h | h
    · obtain ⟨_, ch, rest, _, _, rfl⟩ := h
      exact key
    · obtain ⟨_, rfl⟩ := h
      exact key

/-! ## Order of the tickets -/

theorem TicketOrder_step (s : Sys) (a : Action) (s' : Sys) (hT : TicketOrder s)
    (h : step s a = .ok s') : TicketOrder s' := by
  unfold TicketOrder at hT ⊢
  cases a with
  | get c =>
    obtain ⟨_, h | h⟩ := step_get_inv h
    · obtain ⟨_, pd, rest, hp, rfl⟩ := h
      exact hT
    · obtain ⟨_, rfl⟩ := h
      simp only
      rw [← List.append_assoc, hT, List.range_succ]
  | wake c =>
    obtain ⟨ch, _, _, h | h⟩ := step_wake_inv h
    · obtain ⟨_, pd, rest, hp, rfl⟩ := h
      exact hT
    · obtain ⟨_, rfl⟩ := h
      simp only
      rw [← List.append_assoc, hT, List.range_succ]
  | put c pd =>
    obtain ⟨_, hh, h | h⟩ := step_put_inv h
    · obtain ⟨_, ch, rest, hq, _, rfl⟩ := h
      rw [hq] at hT
      simpa using hT
    · obtain ⟨_, rfl⟩ := h
      exact hT

theorem TicketOrder_init (p : Pool) : TicketOrder (Sys.init p) := by
  simp [TicketOrder, Sys.init, newWaitQueue]

/-! ## Runs of acquisitions, and the counters -/

theorem run_cons_of_step {s s1 : Sys} {a : Action} (as : List Action)
    (h : step s a = .ok s1) : run s (a :: as) = run s1 as := by
  simp only [run, h]

theorem run_gets_fast : ∀ (cs : List Nat) (s : Sys), s.parked = [] →
    cs.length ≤ s.pool.producers.length →
    s.pool.idling = (s.pool.producers.length : Int) →
    s.pool.producers.length ≤ 2147483647 →
    0 ≤ s.pool.running → s.pool.running + cs.length ≤ 2147483647 →
    run s (cs.map Action.get) = .ok { s with
      pool := { s.pool with
        producers := s.pool.producers.drop cs.length
        idling := s.pool.idling - cs.length
        running := s.pool.running + cs.length }
      held := s.held ++ cs.zip s.pool.producers
      log := s.log ++ (cs.zip s.pool.producers).map (fun e => Event.acquired e.1 e.2) } := by
  intro cs
  induction cs with
  | nil =>
    intro s _ _ _ _ _ _
    simp [run]
  | cons c cs ih =>
    intro s hpk hlen hidl hb hr0 hr1
    cases hp : s.pool.producers with
    | nil => rw [hp] at hlen; simp at hlen
    | cons pd rest =>
      rw [hp] at hlen hidl hb
      simp only [List.length_cons] at hlen hidl hb hr1
      have hstep : step s (.get c) = .ok { s with
          pool := { s.pool with
            producers := rest
            idling := s.pool.idling - 1
            running := s.pool.running + 1 }
          held := s.held ++ [(c, pd)]
          log := s.log ++ [.acquired c pd] } := by
        have hi : ¬ s.pool.idling ≤ 0 := by omega
        have w1 : wrapInt32 (s.pool.idling - 1) = s.pool.idling - 1 :=
          wrapInt32_of_range (by omega) (by omega)
        have w2 : wrapInt32 (s.pool.running + 1) = s.pool.running + 1 :=
          wrapInt32_of_range (by omega) (by omega)
        simp only [step, stepGet, hpk, GetConn, GetConn.DoubleCheck, if_neg hi, hp, w1, w2]
        simp
      rw [List.map_cons, run_cons_of_step _ hstep]
      refine (ih _ ?_ ?_ ?_ ?_ ?_ ?_).trans ?_
      · exact hpk
      · show cs.length ≤ rest.length
        omega
      · show s.pool.idling - 1 = (rest.length : Int)
        omega
      · show rest.length ≤ 2147483647
        omega
      · show 0 ≤ s.pool.running + 1
        omega
      · show s.pool.running + 1 + cs.length ≤ 2147483647
        omega
      simp only [List.length_cons, List.drop_succ_cons, List.zip_cons_cons, List.map_cons,
        List.append_assoc, List.singleton_append]
      have e1 : s.pool.running + 1 + (cs.length : Int) = s.pool.running + ((cs.length + 1 : Nat) : Int) := by
        push_cast; omega
      have e2 : s.pool.idling - 1 - (cs.length : Int) = s.pool.idling - ((cs.length + 1 : Nat) : Int) := by
        push_cast; omega
      rw [e1, e2]

theorem run_append_of_ok {s s' : Sys} {as : List Action} (bs : List Action)
    (h : run s as = .ok s') : run s (as ++ bs) = run s' bs := by
  induction as generalizing s with
  | nil => rw [run_nil] at h; cases h; rfl
  | cons a as ih =>
    obtain ⟨s1, h1, h2⟩ := run_cons_ok h
    rw [List.cons_append, run_cons_of_step _ h1]
    exact ih h2

theorem run_gets_block : ∀ (ds : List Nat) (s : Sys), s.pool.idling ≤ 0 →
    ds.Nodup → (∀ d ∈ ds, d ∉ s.parked.map Prod.fst) →
    0 ≤ s.pool.waiting → s.pool.waiting + ds.length ≤ 2147483647 →
    run s (ds.map Action.get) = .ok { s with
      pool := { s.pool with waiting := s.pool.waiting + ds.length }
      wq := { waiters := s.wq.waiters ++ List.range' s.nextChan ds.length }
      nextChan := s.nextChan + ds.length
      parked := s.parked ++ ds.zip (List.range' s.nextChan ds.length)
      log := s.log ++
        (ds.zip (List.range' s.nextChan ds.length)).map (fun e => Event.blocked e.1 e.2) } := by
  intro ds
  induction ds with
  | nil =>
    intro s _ _ _ _ _
    simp [run]
  | cons d ds ih =>
    intro s hi hnd hnp hw0 hw1
    simp only [List.length_cons] at hw1
    have hd : d ∉ s.parked.map Prod.fst := hnp d (List.mem_cons_self _ _)
    have hstep : step s (.get d) = .ok { s with
        pool := { s.pool with waiting := s.pool.waiting + 1 }
        wq := { waiters := s.wq.waiters ++ [s.nextChan] }
        nextChan := s.nextChan + 1
        parked := s.parked ++ [(d, s.nextChan)]
        log := s.log ++ [.blocked d s.nextChan] } := by
      have w1 : wrapInt32 (s.pool.waiting + 1) = s.pool.waiting + 1 :=
        wrapInt32_of_range (by omega) (by omega)
      simp only [step, stepGet, if_neg hd, GetConn, GetConn.DoubleCheck, if_pos hi, w1]
    rw [List.map_cons, run_cons_of_step _ hstep]
    refine (ih _ ?_ ?_ ?_ ?_ ?_).trans ?_
    · exact hi
    · exact (List.nodup_cons.mp hnd).2
    · intro d' hd'
      show d' ∉ (s.parked ++ [(d, s.nextChan)]).map Prod.fst
      rw [List.map_append, List.mem_append]
      rintro (h | h)
      · exact hnp d' (List.mem_cons_of_mem _ hd') h
      · simp only [List.map_cons, List.map_nil, List.mem_singleton] at h
        subst h
        exact (List.nodup_cons.mp hnd).1 hd'
    · show 0 ≤ s.pool.waiting + 1
      omega
    · show s.pool.waiting + 1 + ds.length ≤ 2147483647
      omega
    simp only [List.length_cons, List.range'_succ, List.zip_cons_cons, List.map_cons,
      List.append_assoc, List.singleton_append]
    have e1 : s.pool.waiting + 1 + (ds.length : Int)
        = s.pool.waiting + ((ds.length + 1 : Nat) : Int) := by
      push_cast; omega
    have e2 : s.nextChan + 1 + ds.length = s.nextChan + (ds.length + 1) := by omega
    rw [e1, e2]

/-- The hand-off through the idle list when nothing else is idle: a release
in a state with a queued ticket, an empty idle list and `idling = 0`, followed
by the wake of the caller parked on the head ticket. -/
theorem handoff_steps {s : Sys} {c w ch : Nat} {h : producer} {rest : List Nat}
    (hw0 : 0 < s.pool.waiting) (hw1 : s.pool.waiting ≤ 2147483647)
    (hq : s.wq.waiters = ch :: rest) (hcl : ch ∉ s.closed)
    (hp : s.pool.producers = []) (hi : s.pool.idling = 0)
    (hpk : s.parked.lookup w = some ch)
    (hc : c ∉ s.parked.map Prod.fst) (hh : (c, h) ∈ s.held) :
    step s (.put c h) = .ok { s with
      pool := { s.pool with
        waiting := s.pool.waiting - 1
        producers := [h]
        idling := 1 }
      wq := { waiters := rest }
      closed := s.closed ++ [ch]
      held := s.held.erase (c, h)
      log := s.log ++ [.released c h] } ∧
    step { s with
      pool := { s.pool with
        waiting := s.pool.waiting - 1
        producers := [h]
        idling := 1 }
      wq := { waiters := rest }
      closed := s.closed ++ [ch]
      held := s.held.erase (c, h)
      log := s.log ++ [.released c h] } (.wake w) = .ok { s with
      pool := { s.pool with
        waiting := s.pool.waiting - 1
        producers := []
        idling := 1 }
      wq := { waiters := rest }
      closed := s.closed ++ [ch]
      held := s.held.erase (c, h) ++ [(w, h)]
      parked := s.parked.filter (fun e => e.1 ≠ w)
      log := s.log ++ [.released c h] ++ [.claimed w h] } := by
  have w1 : wrapInt32 (s.pool.waiting - 1) = s.pool.waiting - 1 :=
    wrapInt32_of_range (by omega) (by omega)
  have w2 : wrapInt32 (s.pool.idling + 1) = 1 := by rw [hi]; decide
  constructor
  · simp only [step, stepPut, if_neg hc, if_pos hh, PutConn, if_pos hw0, hq, if_neg hcl, w1,
      w2, hp, List.nil_append]
  · simp only [step, stepWake, hpk, List.mem_append, List.mem_singleton, or_true, if_true,
      GetConn.wake]
    simp


theorem filter_fired_le (closed : List Nat) (ch : Nat) :
    ∀ l : List (Nat × Nat), (l.map Prod.snd).Nodup →
      (l.filter (fun e => decide (e.2 ∈ closed ++ [ch]))).length
        ≤ (l.filter (fun e => decide (e.2 ∈ closed))).length + 1 := by
  intro l
  induction l with
  | nil => intro _; simp
  | cons e l ih =>
    intro hnd
    rw [List.map_cons, List.nodup_cons] at hnd
    obtain ⟨hnot, hnd'⟩ := hnd
    by_cases h1 : e.2 ∈ closed
    · have h2 : e.2 ∈ closed ++ [ch] := List.mem_append_left _ h1
      simp only [List.filter_cons, h1, h2, decide_True, if_true, List.length_cons]
      have := ih hnd'
      omega
    · by_cases h3 : e.2 = ch
      · have h2 : e.2 ∈ closed ++ [ch] := by rw [h3]; simp
        have hsame : l.filter (fun e => decide (e.2 ∈ closed ++ [ch]))
            = l.filter (fun e => decide (e.2 ∈ closed)) := by
          apply List.filter_congr
          intro x hx
          have hxne : x.2 ≠ ch := by
            intro hxe
            apply hnot
            rw [h3, ← hxe]
            exact List.mem_map.mpr ⟨x, hx, rfl⟩
          simp [hxne]
        simp only [List.filter_cons, h1, h2, decide_True, decide_False, if_true,
          List.length_cons, hsame]
        simp
      · have h2 : e.2 ∉ closed ++ [ch] := by simp [h1, h3]
        simp only [List.filter_cons, h1, h2, decide_False, List.length_cons]
        simpa using ih hnd'

theorem filter_woken_lt (closed : List Nat) (c ch : Nat) :
    ∀ l : List (Nat × Nat), l.lookup c = some ch → ch ∈ closed →
      ((l.filter (fun e => decide (e.1 ≠ c))).filter
          (fun e => decide (e.2 ∈ closed))).length + 1
        ≤ (l.filter (fun e => decide (e.2 ∈ closed))).length := by
  intro l
  induction l with
  | nil => intro h; simp at h
  | cons e l ih =>
    intro hl hc
    obtain ⟨a, b⟩ := e
    rw [List.lookup_cons] at hl
    by_cases hca : c = a
    · subst hca
      simp only [beq_self_eq_true] at hl
      cases hl
      have hsub : ((l.filter (fun e => decide (e.1 ≠ c))).filter
          (fun e => decide (e.2 ∈ closed))).length
            ≤ (l.filter (fun e => decide (e.2 ∈ closed))).length :=
        (List.Sublist.filter _ (List.filter_sublist l)).length_le
      simp only [List.filter_cons, ne_eq, not_true_eq_false, decide_False, hc, decide_True,
        if_true, List.length_cons]
      simpa using hsub
    · have hne : (c == a) = false := by simpa using hca
      rw [hne] at hl
      have hac : a ≠ c := fun h => hca h.symm
      have := ih hl hc
      simp only [ne_eq] at this
      by_cases hb : b ∈ closed
      · simp only [List.filter_cons, ne_eq, hac, not_false_eq_true, decide_True, hb, if_true,
          List.length_cons]
        omega
      · simp only [List.filter_cons, ne_eq, hac, not_false_eq_true, decide_True, hb,
          decide_False, if_true]
        simpa using this

theorem lookup_mem {l : List (Nat × Nat)} {c ch : Nat} (h : l.lookup c = some ch) :
    (c, ch) ∈ l := by
  induction l with
  | nil => simp at h
  | cons e l ih =>
    obtain ⟨a, b⟩ := e
    rw [List.lookup_cons] at h
    by_cases hca : c = a
    · subst hca
      simp only [beq_self_eq_true] at h
      cases h
      exact List.mem_cons_self _ _
    · have hne : (c == a) = false := by simpa using hca
      rw [hne] at h
      exact List.mem_cons_of_mem _ (ih h)

theorem drain_put {m j : Nat} {s : Sys} (c : Nat) (pd : producer)
    (hm : m ≤ 2147483647) (hI : DrainInv m j s) (hj : j < m) :
    step s (.put c pd) = .disabled ∨
      ∃ s', step s (.put c pd) = .ok s' ∧ DrainInv m (j + 1) s' := by
  obtain ⟨hT, _, hw, hwl, hi, hf, hpl, hnd, hlog, hE⟩ := hI
  by_cases hc : c ∈ s.parked.map Prod.fst
  · left
    simp only [step, stepPut, if_pos hc]
  by_cases hh : (c, pd) ∈ s.held
  swap
  · left
    simp only [step, stepPut, if_neg hc, if_neg hh]
  right
  cases hq : s.wq.waiters with
  | nil => rw [hq] at hwl; simp only [List.length_nil] at hwl; omega
  | cons ch rest =>
    have hndT : (s.closed ++ s.wq.waiters).Nodup := by
      rw [hT]; exact List.nodup_range _
    rw [hq] at hndT hwl
    simp only [List.length_cons] at hwl
    have hch : ch ∉ s.closed := fun hmem =>
      (List.disjoint_of_nodup_append hndT) hmem (List.mem_cons_self _ _)
    have hw0 : s.pool.waiting > 0 := by omega
    have w1 : wrapInt32 (s.pool.waiting - 1) = s.pool.waiting - 1 :=
      wrapInt32_of_range (by omega) (by omega)
    have w2 : wrapInt32 (s.pool.idling + 1) = s.pool.idling + 1 :=
      wrapInt32_of_range (by omega) (by omega)
    have hstep : step s (.put c pd) = .ok { s with
        pool := { s.pool with
          waiting := s.pool.waiting - 1
          producers := s.pool.producers ++ [pd]
          idling := s.pool.idling + 1 }
        wq := { waiters := rest }
        closed := s.closed ++ [ch]
        held := s.held.erase (c, pd)
        log := s.log ++ [.released c pd] } := by
      simp only [step, stepPut, if_neg hc, if_pos hh, PutConn, if_pos hw0, hq, if_neg hch, w1,
        w2]
    refine ⟨_, hstep, TicketOrder_step _ _ _ hT hstep, by omega, ?_, ?_, ?_, ?_, ?_, hnd, ?_,
      Excl_step _ _ _ hE hstep⟩
    · show s.pool.waiting - 1 = ((m - (j + 1) : Nat) : Int)
      omega
    · show rest.length = m - (j + 1)
      omega
    · show s.pool.idling + 1 = ((j + 1 : Nat) : Int)
      push_cast; omega
    · show (s.parked.filter (fun e => decide (e.2 ∈ s.closed ++ [ch]))).length
        ≤ (s.pool.producers ++ [pd]).length
      have := filter_fired_le s.closed ch s.parked hnd
      unfold firedParked at hf
      rw [List.length_append, List.length_singleton]
      omega
    · show (s.pool.producers ++ [pd]).length ≤ j + 1
      rw [List.length_append, List.length_singleton]
      omega
    · intro e he
      rcases List.mem_append.mp he with he | he
      · exact hlog e he
      · rw [List.mem_singleton] at he; subst he; rfl

theorem drain_wake {m j : Nat} {s : Sys} (c : Nat) (hI : DrainInv m j s) :
    step s (.wake c) = .disabled ∨
      ∃ s', step s (.wake c) = .ok s' ∧ DrainInv m j s' := by
  obtain ⟨hT, hjm, hw, hwl, hi, hf, hpl, hnd, hlog, hE⟩ := hI
  cases hl : s.parked.lookup c with
  | none =>
    left
    simp only [step, stepWake, hl]
  | some ch =>
    by_cases hcl : ch ∈ s.closed
    swap
    · left
      simp only [step, stepWake, hl, if_neg hcl]
    right
    have hmem : (c, ch) ∈ firedParked s := by
      unfold firedParked
      rw [List.mem_filter]
      exact ⟨lookup_mem hl, by simpa using hcl⟩
    have hpos : 0 < (firedParked s).length := List.length_pos_of_mem hmem
    cases hp : s.pool.producers with
    | nil => rw [hp] at hf; simp only [List.length_nil] at hf; omega
    | cons pd rest =>
      rw [hp] at hf hpl
      simp only [List.length_cons] at hf hpl
      have hi0 : s.pool.idling > 0 := by omega
      have hstep : step s (.wake c) = .ok { s with
          pool := { s.pool with producers := rest }
          held := s.held ++ [(c, pd)]
          parked := s.parked.filter (fun e => e.1 ≠ c)
          log := s.log ++ [.claimed c pd] } := by
        simp only [step, stepWake, hl, if_pos hcl, GetConn.wake, if_pos hi0, hp]
      refine ⟨_, hstep, TicketOrder_step _ _ _ hT hstep, hjm, hw, hwl, hi, ?_, ?_, ?_, ?_,
        Excl_step _ _ _ hE hstep⟩
      · show ((s.parked.filter (fun e => decide (e.1 ≠ c))).filter
            (fun e => decide (e.2 ∈ s.closed))).length ≤ rest.length
        have := filter_woken_lt s.closed c ch s.parked hl hcl
        unfold firedParked at hf
        omega
      · show rest.length ≤ j
        omega
      · show ((s.parked.filter (fun e => decide (e.1 ≠ c))).map Prod.snd).Nodup
        exact List.Nodup.sublist ((List.filter_sublist _).map _) hnd
      · intro e he
        rcases List.mem_append.mp he with he | he
        · exact hlog e he
        · rw [List.mem_singleton] at he; subst he; rfl

theorem drain_run {m : Nat} (hm : m ≤ 2147483647) :
    ∀ (acts : List Action) (j : Nat) (s : Sys), DrainInv m j s →
      (∀ a ∈ acts, a.isGet = false) → j + releases acts ≤ m →
      run s acts = .disabled ∨
        ∃ s', run s acts = .ok s' ∧ DrainInv m (j + releases acts) s' := by
  intro acts
  induction acts with
  | nil =>
    intro j s hI _ _
    right
    exact ⟨s, rfl, by simpa [releases] using hI⟩
  | cons a as ih =>
    intro j s hI hg hr
    have hg' : ∀ a ∈ as, a.isGet = false := fun a ha => hg a (List.mem_cons_of_mem _ ha)
    cases a with
    | get c =>
      have := hg (.get c) (List.mem_cons_self _ _)
      simp [Action.isGet] at this
    | wake c =>
      have hr' : j + releases as ≤ m := by simpa [releases] using hr
      rcases drain_wake c hI with h | ⟨s1, h1, hI1⟩
      · left
        simp only [run, h]
      · rw [run_cons_of_step _ h1]
        simpa [releases] using ih j s1 hI1 hg' hr'
    | put c pd =>
      have hr' : j + 1 + releases as ≤ m := by
        simp only [releases] at hr; omega
      rcases drain_put c pd hm hI (by omega) with h | ⟨s1, h1, hI1⟩
      · left
        simp only [run, h]
      · rw [run_cons_of_step _ h1]
        have := ih (j + 1) s1 hI1 hg' hr'
        have e : j + releases (Action.put c pd :: as) = j + 1 + releases as := by
          simp only [releases]; omega
        rw [e]
        exact this

/-! ## Shutdown, construction and the mutex -/

theorem closeLoop_ok (closer : producer → Option String) :
    ∀ l : List producer, (∀ pd ∈ l, closer pd = none) → closeLoop closer l = (l, none) := by
  intro l
  induction l with
  | nil => intro _; rfl
  | cons pd rest ih =>
    intro h
    have h1 : closer pd = none := h pd (List.mem_cons_self _ _)
    have h2 := ih (fun x hx => h x (List.mem_cons_of_mem _ hx))
    simp only [closeLoop, h1, h2]

theorem closeLoop_prefix (closer : producer → Option String) :
    ∀ l : List producer, (closeLoop closer l).1 <+: l := by
  intro l
  induction l with
  | nil => exact List.prefix_refl _
  | cons pd rest ih =>
    cases hc : closer pd with
    | some err =>
      simp only [closeLoop, hc]
      exact ⟨rest, rfl⟩
    | none =>
      simp only [closeLoop, hc]
      exact (List.prefix_cons_inj pd).mpr ih

theorem closeLoop_error_iff (closer : producer → Option String) :
    ∀ l : List producer,
      (closeLoop closer l).2 ≠ none ↔ ∃ pd ∈ l, closer pd ≠ none := by
  intro l
  induction l with
  | nil => simp [closeLoop]
  | cons pd rest ih =>
    cases hc : closer pd with
    | some err =>
      simp only [closeLoop, hc]
      constructor
      · intro _
        exact ⟨pd, List.mem_cons_self _ _, by rw [hc]; simp⟩
      · intro _
        simp
    | none =>
      simp only [closeLoop, hc]
      rw [ih]
      constructor
      · rintro ⟨x, hx, hne⟩
        exact ⟨x, List.mem_cons_of_mem _ hx, hne⟩
      · rintro ⟨x, hx, hne⟩
        rcases List.mem_cons.mp hx with h | h
        · subst h; exact absurd hc hne
        · exact ⟨x, h, hne⟩

theorem ClosePool_counters (p : Pool) (closer : producer → Option String) :
    (ClosePool p closer).1.running = p.running ∧
    (ClosePool p closer).1.idling = p.idling ∧
    (ClosePool p closer).1.waiting = p.waiting ∧
    (ClosePool p closer).2.1 = (closeLoop closer p.producers).1 ∧
    (ClosePool p closer).2.2 = (closeLoop closer p.producers).2 := by
  unfold ClosePool
  rcases hcl : closeLoop closer p.producers with ⟨called, err⟩
  cases err with
  | none => exact ⟨rfl, rfl, rfl, rfl, rfl⟩
  | some e => exact ⟨rfl, rfl, rfl, rfl, rfl⟩

theorem addInitial_ok (env : Env) (ids : Nat → Nat) :
    ∀ (n i : Nat) (p : Pool),
      (∀ j, j < n → env.generateSonyflakeID (i + j) = .ok (ids (i + j))) →
      ∃ p', Pool.addInitial env n i p = .ok p' ∧
        p'.producers = p.producers ++ (List.range' i n).map (fun j =>
          { producerID := ids j, writerAddr := p.BrokerAddress, writerTopic := p.Topic }) ∧
        Pool.addInitialCalls env n i p = n := by
  intro n
  induction n with
  | zero =>
    intro i p _
    exact ⟨p, rfl, by simp, rfl⟩
  | succ n ih =>
    intro i p h
    have h0 : env.generateSonyflakeID i = .ok (ids i) := by
      simpa using h 0 (Nat.succ_pos n)
    obtain ⟨p', e1, e2, e3⟩ := ih (i + 1)
      { p with
        producers := p.producers ++
          [{ producerID := ids i, writerAddr := p.BrokerAddress, writerTopic := p.Topic }]
        idling := wrapInt32 (p.idling + 1) }
      (by
        intro j hj
        have := h (j + 1) (by omega)
        have e : i + (j + 1) = i + 1 + j := by omega
        rw [e] at this
        exact this)
    refine ⟨p', ?_, ?_, ?_⟩
    · simp only [Pool.addInitial, h0, Pool.addProducer]
      exact e1
    · rw [e2]
      simp only [List.range'_succ, List.map_cons, List.append_assoc, List.singleton_append]
    · simp only [Pool.addInitialCalls, h0, Pool.addProducer]
      rw [e3]
      omega

theorem addInitial_error_iff (env : Env) :
    ∀ (n i : Nat) (p : Pool),
      (∃ e, Pool.addInitial env n i p = .error e) ↔
        ∃ j, j < n ∧ ∃ e, env.generateSonyflakeID (i + j) = .error e := by
  intro n
  induction n with
  | zero =>
    intro i p
    simp [Pool.addInitial]
  | succ n ih =>
    intro i p
    cases hg : env.generateSonyflakeID i with
    | error e =>
      simp only [Pool.addInitial, hg, Pool.addProducer]
      constructor
      · intro _
        exact ⟨0, Nat.succ_pos n, e, by simpa using hg⟩
      · intro _
        exact ⟨e, rfl⟩
    | ok uid =>
      simp only [Pool.addInitial, hg, Pool.addProducer]
      rw [ih]
      constructor
      · rintro ⟨j, hj, e, he⟩
        refine ⟨j + 1, by omega, e, ?_⟩
        have e' : i + (j + 1) = i + 1 + j := by omega
        rw [e']
        exact he
      · rintro ⟨j, hj, e, he⟩
        cases j with
        | zero =>
          simp only [Nat.add_zero] at he
          rw [hg] at he
          cases he
        | succ j =>
          refine ⟨j, by omega, e, ?_⟩
          have e' : i + (j + 1) = i + 1 + j := by omega
          rw [← e']
          exact he

theorem wellLocked_fastEvs (o : Obs) : wellLocked true (GetConn.fastEvs o) = true := by
  unfold GetConn.fastEvs
  cases o.nonempty <;> decide

theorem wellLocked_claimEvs (o : Obs) : wellLocked true (GetConn.claimEvs o) = true := by
  unfold GetConn.claimEvs
  cases o.nonempty <;> decide

theorem wellLocked_parkEvs (es : List LockEv) :
    wellLocked true (GetConn.parkEvs ++ es) = wellLocked false es := by
  simp [GetConn.parkEvs, wellLocked]

theorem wellLocked_DoubleCheckEvs :
    ∀ (wakes : List Obs) (o : Obs),
      wellLocked true (GetConn.DoubleCheckEvs o wakes) = true := by
  intro wakes
  induction wakes with
  | nil =>
    intro o
    unfold GetConn.DoubleCheckEvs
    by_cases h : o.idling ≤ 0
    · simp only [if_pos h, wellLocked, Bool.true_and]
      rfl
    · simp only [if_neg h, wellLocked, Bool.true_and]
      exact wellLocked_fastEvs o
  | cons o' rest ih =>
    intro o
    unfold GetConn.DoubleCheckEvs
    by_cases h : o.idling ≤ 0
    · by_cases h' : o'.idling > 0
      · simp only [if_pos h, if_pos h', wellLocked, Bool.true_and, Bool.not_false]
        exact wellLocked_claimEvs o'
      · simp only [if_pos h, if_neg h', wellLocked, Bool.true_and, Bool.not_false]
        exact ih o'
    · simp only [if_neg h, wellLocked, Bool.true_and]
      exact wellLocked_fastEvs o

theorem count_DoubleCheckEvs :
    ∀ (wakes : List Obs) (o : Obs),
      (GetConn.DoubleCheckEvs o wakes).count .unlock
        = (GetConn.DoubleCheckEvs o wakes).count .lock + 1 := by
  intro wakes
  induction wakes with
  | nil =>
    intro o
    unfold GetConn.DoubleCheckEvs GetConn.fastEvs
    by_cases h : o.idling ≤ 0
    · simp only [if_pos h]
      decide
    · simp only [if_neg h]
      cases o.nonempty <;> decide
  | cons o' rest ih =>
    intro o
    unfold GetConn.DoubleCheckEvs
    by_cases h : o.idling ≤ 0
    · simp only [if_pos h]
      by_cases h' : o'.idling > 0
      · simp only [if_pos h']
        unfold GetConn.claimEvs
        cases o'.nonempty <;> decide
      · simp only [if_neg h']
        have := ih o'
        simp only [List.count_cons, List.count_append, GetConn.parkEvs, List.count_nil]
        simp
        omega
    · simp only [if_neg h]
      unfold GetConn.fastEvs
      cases o.nonempty <;> decide

/-! ## Counters as `int32` values over schedules of any length -/

theorem wrapInt32_range (x : Int) :
    -2147483648 ≤ wrapInt32 x ∧ wrapInt32 x < 2147483648 := by
  unfold wrapInt32
  omega

theorem WaitInv_step (s : Sys) (a : Action) (s' : Sys) (hI : WaitInv s)
    (h : step s a = .ok s') : WaitInv s' := by
  unfold WaitInv at hI ⊢
  cases a with
  | get c =>
    obtain ⟨_, h | h⟩ := step_get_inv h
    · obtain ⟨_, pd, rest, _, rfl⟩ := h
      exact hI
    · obtain ⟨_, rfl⟩ := h
      show wrapInt32 (s.pool.waiting + 1) = wrapInt32 ((s.wq.waiters ++ [s.nextChan]).length : Int)
      rw [hI, List.length_append, List.length_singleton]
      unfold wrapInt32
      push_cast
      omega
  | wake c =>
    obtain ⟨ch, _, _, h | h⟩ := step_wake_inv h
    · obtain ⟨_, pd, rest, _, rfl⟩ := h
      exact hI
    · obtain ⟨_, rfl⟩ := h
      show wrapInt32 (s.pool.waiting + 1) = wrapInt32 ((s.wq.waiters ++ [s.nextChan]).length : Int)
      rw [hI, List.length_append, List.length_singleton]
      unfold wrapInt32
      push_cast
      omega
  | put c pd =>
    obtain ⟨_, _, h | h⟩ := step_put_inv h
    · obtain ⟨_, ch, rest, hq, _, rfl⟩ := h
      show wrapInt32 (s.pool.waiting - 1) = wrapInt32 (rest.length : Int)
      rw [hI, hq, List.length_cons]
      unfold wrapInt32
      push_cast
      omega
    · obtain ⟨_, rfl⟩ := h
      exact hI

theorem WaitInv_init {env : Env} {opts : List PoolOption} {p : Pool}
    (hnew : NewPool env opts = .ok p) : WaitInv (Sys.init p) := by
  obtain ⟨_, hwt, _, _⟩ := NewPool_spec hnew
  show p.waiting = wrapInt32 (([] : List Nat).length : Int)
  rw [hwt]
  decide

/-- C1 (the code breaks it): with `initCapacity = maxCapacity = 1`, one
`GetConn` followed by the `PutConn` of the handle it returned leaves
`idling = 1` and `running = 1`, so `idling + running` exceeds `maxCapacity`:
`PutConn` never decrements `running`. -/
theorem counter_bound_broken :
    NewPool demoEnv [.WithInitCapacity 1, .WithMaxCapacity 1]
      = .ok (demoPool 1 1 0 0 1 [demoHandle 0]) ∧
    run (Sys.init (demoPool 1 1 0 0 1 [demoHandle 0]))
        [.get 0, .put 0 (demoHandle 0)]
      = .ok { pool := demoPool 1 1 1 0 1 [demoHandle 0]
              wq := { waiters := [] }, closed := [], nextChan := 0
              held := [], parked := []
              log := [.acquired 0 (demoHandle 0), .released 0 (demoHandle 0)] } ∧
    ¬ ((demoPool 1 1 1 0 1 [demoHandle 0]).idling
        + (demoPool 1 1 1 0 1 [demoHandle 0]).running
        ≤ (demoPool 1 1 1 0 1 [demoHandle 0]).maxCapacity) := by
  refine ⟨rfl, by decide, by decide⟩

/-- C2: in every state reached from a pool returned by `NewPool` whose handles
have pairwise distinct ids, by any schedule of `GetConn`, wake and `PutConn`
steps in which callers release only handles they hold, no id occurs twice
among the held handles (so two holders of one id are the same holder), no held
handle is in the idle list, and the idle list has no id twice. -/
theorem exclusivity (env : Env) (opts : List PoolOption) (p : Pool)
    (acts : List Action) (s : Sys)
    (_hnew : NewPool env opts = .ok p)
    (hid : (p.producers.map (fun pd => pd.producerID)).Nodup)
    (hrun : run (Sys.init p) acts = .ok s) :
    (s.held.map (fun e => e.2.producerID)).Nodup ∧
    (∀ e1 ∈ s.held, ∀ e2 ∈ s.held, e1.2.producerID = e2.2.producerID → e1 = e2) ∧
    (∀ e ∈ s.held, ∀ pd ∈ s.pool.producers, e.2.producerID ≠ pd.producerID) ∧
    (s.pool.producers.map (fun pd => pd.producerID)).Nodup := by
  have h0 : Excl (Sys.init p) := by simpa [Excl, Sys.init] using hid
  have hE : Excl s := run_invariant Excl Excl_step acts _ _ h0 hrun
  unfold Excl at hE
  rw [List.nodup_append] at hE
  obtain ⟨h1, h2, h3⟩ := hE
  refine ⟨h1, ?_, ?_, h2⟩
  · intro e1 he1 e2 he2 hEq
    exact List.inj_on_of_nodup_map h1 he1 he2 hEq
  · intro e he pd hpd hEq
    exact h3 (List.mem_map.mpr ⟨e, he, rfl⟩) (List.mem_map.mpr ⟨pd, hpd, hEq.symm⟩)

/-- C2, on the pool of two handles after two acquisitions, a blocked third
caller, one release and the wake of the third caller. -/
theorem exclusivity_witness :
    (([(1, demoHandle 1), (2, demoHandle 0)] : List (Nat × producer)).map
        (fun e => e.2.producerID)).Nodup ∧
    (∀ e1 ∈ ([(1, demoHandle 1), (2, demoHandle 0)] : List (Nat × producer)),
      ∀ e2 ∈ ([(1, demoHandle 1), (2, demoHandle 0)] : List (Nat × producer)),
        e1.2.producerID = e2.2.producerID → e1 = e2) ∧
    (∀ e ∈ ([(1, demoHandle 1), (2, demoHandle 0)] : List (Nat × producer)),
      ∀ pd ∈ ([] : List producer), e.2.producerID ≠ pd.producerID) ∧
    (([] : List producer).map (fun pd => pd.producerID)).Nodup :=
  exclusivity demoEnv [.WithInitCapacity 2, .WithMaxCapacity 2]
    (demoPool 2 2 0 0 2 [demoHandle 0, demoHandle 1])
    [.get 0, .get 1, .get 2, .put 0 (demoHandle 0), .wake 2]
    { pool := demoPool 2 2 2 0 1 []
      wq := { waiters := [] }, closed := [0], nextChan := 1
      held := [(1, demoHandle 1), (2, demoHandle 0)], parked := []
      log := [.acquired 0 (demoHandle 0), .acquired 1 (demoHandle 1), .blocked 2 0,
              .released 0 (demoHandle 0), .claimed 2 (demoHandle 0)] }
    rfl (by decide) (by decide)

/-- C3 (as stated it fails): on the pool with one handle, caller 0 acquires,
caller 1 blocks, caller 0 releases (the ticket of caller 1 is fired), and
caller 2, who arrives after that, takes the handle on the fast path while
caller 1 is still blocked; caller 1 then wakes, finds `idling = 0` and queues
again with a fresh ticket. -/
theorem fifo_overtaken :
    NewPool demoEnv [.WithInitCapacity 1, .WithMaxCapacity 1]
      = .ok (demoPool 1 1 0 0 1 [demoHandle 0]) ∧
    ¬ FifoFair (demoPool 1 1 0 0 1 [demoHandle 0]) ∧
    run (Sys.init (demoPool 1 1 0 0 1 [demoHandle 0]))
        [.get 0, .get 1, .put 0 (demoHandle 0), .get 2, .wake 1]
      = .ok { pool := demoPool 1 1 2 1 0 []
              wq := { waiters := [1] }, closed := [0], nextChan := 2
              held := [(2, demoHandle 0)], parked := [(1, 1)]
              log := [.acquired 0 (demoHandle 0), .blocked 1 0,
                      .released 0 (demoHandle 0), .acquired 2 (demoHandle 0),
                      .requeued 1 1] } := by
  refine ⟨rfl, ?_, by decide⟩
  intro h
  have h2 := (h [.get 0, .get 1, .put 0 (demoHandle 0)]
    { pool := demoPool 1 1 1 0 1 [demoHandle 0]
      wq := { waiters := [] }, closed := [0], nextChan := 1
      held := [], parked := [(1, 0)]
      log := [.acquired 0 (demoHandle 0), .blocked 1 0, .released 0 (demoHandle 0)] }
    (by decide)).2 2
    { pool := demoPool 1 1 2 0 0 []
      wq := { waiters := [] }, closed := [0], nextChan := 1
      held := [(2, demoHandle 0)], parked := [(1, 0)]
      log := [.acquired 0 (demoHandle 0), .blocked 1 0, .released 0 (demoHandle 0),
              .acquired 2 (demoHandle 0)] }
    (demoHandle 0) (by decide) (by decide)
  exact absurd h2 (by decide)

/-- C3 (amended): in every state reached from a pool returned by `NewPool`,
the tickets fired so far, in the order of their firing, followed by the queued
tickets are the tickets in the order of their creation: tickets are fired in
the order in which they were enqueued.  `PutConn` with `waiting > 0` fires the
head of the queue, and a woken waiter that finds `idling <= 0` enqueues a fresh
ticket at the tail. -/
theorem tickets_fired_in_order (env : Env) (opts : List PoolOption) (p : Pool)
    (acts : List Action) (s : Sys)
    (_hnew : NewPool env opts = .ok p)
    (hrun : run (Sys.init p) acts = .ok s) :
    s.closed ++ s.wq.waiters = List.range s.nextChan ∧
    (∀ (pd : producer) (ch : Nat) (rest : List Nat),
      0 < s.pool.waiting → s.wq.waiters = ch :: rest →
        ∃ p', PutConn s.pool s.wq s.closed pd
          = .ok p' { waiters := rest } (s.closed ++ [ch])) ∧
    (∀ ch' : Nat, s.pool.idling ≤ 0 →
        ∃ p', GetConn.wake s.pool s.wq ch'
          = .blocked p' { waiters := s.wq.waiters ++ [ch'] } ch') := by
  have hT : TicketOrder s :=
    run_invariant TicketOrder TicketOrder_step acts _ _ (TicketOrder_init p) hrun
  refine ⟨hT, ?_, ?_⟩
  · intro pd ch rest hw hq
    have hnd : (s.closed ++ s.wq.waiters).Nodup := by
      rw [hT]; exact List.nodup_range _
    rw [hq] at hnd
    have hch : ch ∉ s.closed := by
      intro hmem
      exact (List.disjoint_of_nodup_append hnd) hmem (List.mem_cons_self _ _)
    unfold PutConn
    rw [if_pos hw, hq]
    simp only [if_neg hch]
    exact ⟨_, rfl⟩
  · intro ch' hi
    unfold GetConn.wake GetConn.DoubleCheck
    rw [if_neg (by omega), if_pos hi]
    exact ⟨_, rfl⟩

/-- C3 (amended), on the schedule in which caller 2 overtakes caller 1. -/
theorem tickets_fired_in_order_witness :
    ([0] : List Nat) ++ [1] = List.range 2 ∧
    (∀ (pd : producer) (ch : Nat) (rest : List Nat),
      0 < (demoPool 1 1 2 1 0 []).waiting → [1] = ch :: rest →
        ∃ p', PutConn (demoPool 1 1 2 1 0 []) { waiters := [1] } [0] pd
          = .ok p' { waiters := rest } ([0] ++ [ch])) ∧
    (∀ ch' : Nat, (demoPool 1 1 2 1 0 []).idling ≤ 0 →
        ∃ p', GetConn.wake (demoPool 1 1 2 1 0 []) { waiters := [1] } ch'
          = .blocked p' { waiters := [1] ++ [ch'] } ch') :=
  tickets_fired_in_order demoEnv [.WithInitCapacity 1, .WithMaxCapacity 1]
    (demoPool 1 1 0 0 1 [demoHandle 0])
    [.get 0, .get 1, .put 0 (demoHandle 0), .get 2, .wake 1]
    { pool := demoPool 1 1 2 1 0 []
      wq := { waiters := [1] }, closed := [0], nextChan := 2
      held := [(2, demoHandle 0)], parked := [(1, 1)]
      log := [.acquired 0 (demoHandle 0), .blocked 1 0,
              .released 0 (demoHandle 0), .acquired 2 (demoHandle 0),
              .requeued 1 1] }
    rfl (by decide)

/-- C4: for every `n >= 1` (an `int32`), on a pool built by `NewPool` with
`initCapacity = maxCapacity = n` and distinct ids, after `n` calls of `GetConn`
(by the callers `cs`) and one more by `w`, the `n` first calls have returned the
`n` handles (`running = n`, `idling = 0`) and `w` is parked on ticket 0, the
only queued ticket; then for every held handle `h` whose holder `c` is not the
blocked caller, `PutConn h` fires exactly ticket 0 and the wake step of `w`
returns `h` itself. -/
theorem handoff_identity (env : Env) (opts : List PoolOption) (p : Pool)
    (n : Nat) (cs : List Nat) (w : Nat)
    (hn : 1 ≤ n) (hn32 : n ≤ 2147483647)
    (hnew : NewPool env opts = .ok p)
    (hinit : p.initCapacity = n) (_hmax : p.maxCapacity = n)
    (hid : (p.producers.map (fun pd => pd.producerID)).Nodup)
    (hlen : cs.length = n) :
    ∃ s, run (Sys.init p) (cs.map Action.get ++ [.get w]) = .ok s ∧
      s.held = cs.zip p.producers ∧ s.held.length = n ∧
      (s.held.map (fun e => e.2.producerID)).Nodup ∧
      s.pool.running = n ∧ s.pool.idling = 0 ∧ s.pool.producers = [] ∧
      s.parked = [(w, 0)] ∧ s.wq.waiters = [0] ∧ s.pool.waiting = 1 ∧ s.closed = [] ∧
      ∀ c h, (c, h) ∈ s.held → c ≠ w →
        ∃ s1 s2, step s (.put c h) = .ok s1 ∧ s1.closed = [0] ∧ s1.wq.waiters = [] ∧
          step s1 (.wake w) = .ok s2 ∧ s2.log = s1.log ++ [.claimed w h] ∧
          (w, h) ∈ s2.held ∧ s2.parked = [] := by
  obtain ⟨hr, hwt, hl, hidl⟩ := NewPool_spec hnew
  rw [hinit] at hl hidl
  simp only [Int.toNat_ofNat] at hl hidl
  have hidl' : p.idling = (n : Int) := hidl (by omega)
  obtain ⟨sA, hsA, hA⟩ : ∃ sA, sA = _ ∧ run (Sys.init p) (cs.map Action.get) = .ok sA :=
    ⟨_, rfl, run_gets_fast cs (Sys.init p) rfl
      (by show cs.length ≤ p.producers.length; omega)
      (by show p.idling = (p.producers.length : Int); rw [hl]; exact hidl')
      (by show p.producers.length ≤ 2147483647; omega)
      (by show 0 ≤ p.running; omega)
      (by show p.running + cs.length ≤ 2147483647; omega)⟩
  have a1 : sA.pool.idling = 0 := by
    rw [hsA]; show p.idling - (cs.length : Int) = 0; omega
  have a2 : sA.pool.running = n := by
    rw [hsA]; show p.running + (cs.length : Int) = n; omega
  have a3 : sA.pool.producers = [] := by
    rw [hsA]; show p.producers.drop cs.length = []
    rw [List.drop_eq_nil_iff]; omega
  have a4 : sA.pool.waiting = 0 := by rw [hsA]; exact hwt
  have a5 : sA.parked = [] := by rw [hsA]; rfl
  have a6 : sA.held = cs.zip p.producers := by
    rw [hsA]; show [] ++ cs.zip p.producers = _; simp
  have a7 : sA.wq.waiters = [] := by rw [hsA]; rfl
  have a8 : sA.closed = [] := by rw [hsA]; rfl
  have a9 : sA.nextChan = 0 := by rw [hsA]; rfl
  obtain ⟨sB, hsB, hB⟩ : ∃ sB, sB = _ ∧ run sA (List.map Action.get [w]) = .ok sB :=
    ⟨_, rfl, run_gets_block [w] sA (by omega) (List.nodup_singleton w)
      (by intro d _; rw [a5]; simp) (by omega) (by rw [a4]; simp)⟩
  have hrun := (run_append_of_ok (List.map Action.get [w]) hA).trans hB
  have b1 : sB.pool.idling = 0 := by rw [hsB]; exact a1
  have b2 : sB.pool.running = n := by rw [hsB]; exact a2
  have b3 : sB.pool.producers = [] := by rw [hsB]; exact a3
  have b4 : sB.pool.waiting = 1 := by
    rw [hsB]; show sA.pool.waiting + (([w] : List Nat).length : Int) = 1; rw [a4]; rfl
  have b5 : sB.parked = [(w, 0)] := by
    rw [hsB]; show sA.parked ++ [w].zip (List.range' sA.nextChan 1) = _
    rw [a5, a9]; rfl
  have b6 : sB.held = cs.zip p.producers := by rw [hsB]; exact a6
  have b7 : sB.wq.waiters = [0] := by
    rw [hsB]; show sA.wq.waiters ++ List.range' sA.nextChan 1 = _
    rw [a7, a9]; rfl
  have b8 : sB.closed = [] := by rw [hsB]; exact a8
  have hsnd : (cs.zip p.producers).map Prod.snd = p.producers :=
    List.map_snd_zip _ _ (by omega)
  have hzip : (cs.zip p.producers).map (fun e => e.2.producerID)
      = p.producers.map (fun pd => pd.producerID) := by
    conv_rhs => rw [← hsnd]
    rw [List.map_map]
    rfl
  refine ⟨sB, hrun, b6, ?_, ?_, b2, b1, b3, b5, b7, b4, b8, ?_⟩
  · rw [b6, List.length_zip]; omega
  · rw [b6, hzip]; exact hid
  · intro c h hh hcw
    have hc : c ∉ sB.parked.map Prod.fst := by rw [b5]; simpa using hcw
    have hlk : sB.parked.lookup w = some 0 := by rw [b5]; simp [List.lookup]
    obtain ⟨e1, e2⟩ := handoff_steps (by omega) (by omega) b7 (by rw [b8]; simp) b3 b1 hlk hc hh
    refine ⟨_, _, e1, ?_, rfl, e2, ?_, ?_, ?_⟩
    · show sB.closed ++ [0] = [0]
      rw [b8]; rfl
    · rfl
    · show (w, h) ∈ sB.held.erase (c, h) ++ [(w, h)]
      simp
    · show sB.parked.filter (fun e => e.1 ≠ w) = []
      rw [b5]; simp

/-- C4, with `n = 2`: callers 0 and 1 hold the two handles and caller 2 is
parked. -/
theorem handoff_identity_witness :
    ∃ s, run (Sys.init (demoPool 2 2 0 0 2 [demoHandle 0, demoHandle 1]))
        (([0, 1] : List Nat).map Action.get ++ [.get 2]) = .ok s ∧
      s.held = ([0, 1] : List Nat).zip
        (demoPool 2 2 0 0 2 [demoHandle 0, demoHandle 1]).producers ∧
      s.held.length = 2 ∧
      (s.held.map (fun e => e.2.producerID)).Nodup ∧
      s.pool.running = (2 : Nat) ∧ s.pool.idling = 0 ∧ s.pool.producers = [] ∧
      s.parked = [(2, 0)] ∧ s.wq.waiters = [0] ∧ s.pool.waiting = 1 ∧ s.closed = [] ∧
      ∀ c h, (c, h) ∈ s.held → c ≠ 2 →
        ∃ s1 s2, step s (.put c h) = .ok s1 ∧ s1.closed = [0] ∧ s1.wq.waiters = [] ∧
          step s1 (.wake 2) = .ok s2 ∧ s2.log = s1.log ++ [.claimed 2 h] ∧
          (2, h) ∈ s2.held ∧ s2.parked = [] :=
  handoff_identity demoEnv [.WithInitCapacity 2, .WithMaxCapacity 2]
    (demoPool 2 2 0 0 2 [demoHandle 0, demoHandle 1]) 2 [0, 1] 2
    (by decide) (by decide) rfl rfl rfl (by decide) rfl

/-- C5: for all `k` and `m` (each an `int32`), on a pool built by `NewPool` with
`initCapacity = k` and distinct ids, when `k + m` calls of `GetConn` run before
any release (the `m` last callers being distinct), the `k` first return at once
with the `k` handles and the other `m` are parked with `waiting = m`.  Then for
every schedule of `PutConn` calls of held handles (at most `m`) and wake steps,
no step panics, no woken waiter queues again, no id is held twice, and after
`m` releases `waiting = 0`. -/
theorem scenario_drain (env : Env) (opts : List PoolOption) (p : Pool)
    (k m : Nat) (cs : List Nat) (acts : List Action)
    (hk : k ≤ 2147483647) (hm : m ≤ 2147483647)
    (hnew : NewPool env opts = .ok p) (hinit : p.initCapacity = k)
    (hid : (p.producers.map (fun pd => pd.producerID)).Nodup)
    (hlen : cs.length = k + m) (hnd : (cs.drop k).Nodup)
    (hacts : ∀ a ∈ acts, a.isGet = false) (hrel : releases acts ≤ m) :
    ∃ s1, run (Sys.init p) (cs.map Action.get) = .ok s1 ∧
      s1.held = (cs.take k).zip p.producers ∧ s1.held.length = k ∧
      (s1.held.map (fun e => e.2.producerID)).Nodup ∧
      s1.parked.map Prod.fst = cs.drop k ∧ s1.parked.length = m ∧
      s1.pool.waiting = m ∧ s1.wq.waiters.length = m ∧
      run s1 acts ≠ .panic ∧
      ∀ s2, run s1 acts = .ok s2 →
        (∀ e ∈ s2.log, e.isRequeue = false) ∧
        (releases acts = m → s2.pool.waiting = 0) ∧
        (s2.held.map (fun e => e.2.producerID)).Nodup ∧
        (∀ e1 ∈ s2.held, ∀ e2 ∈ s2.held,
          e1.2.producerID = e2.2.producerID → e1 = e2) := by
  obtain ⟨hr, hwt, hl, hidl⟩ := NewPool_spec hnew
  rw [hinit] at hl hidl
  simp only [Int.toNat_ofNat] at hl hidl
  have hidl' : p.idling = (k : Int) := hidl (by omega)
  have htk : (cs.take k).length = k := by rw [List.length_take]; omega
  have hdr : (cs.drop k).length = m := by rw [List.length_drop]; omega
  obtain ⟨sA, hsA, hA⟩ : ∃ sA, sA = _ ∧
      run (Sys.init p) ((cs.take k).map Action.get) = .ok sA :=
    ⟨_, rfl, run_gets_fast (cs.take k) (Sys.init p) rfl
      (by show (cs.take k).length ≤ p.producers.length; omega)
      (by show p.idling = (p.producers.length : Int); rw [hl]; exact hidl')
      (by show p.producers.length ≤ 2147483647; omega)
      (by show 0 ≤ p.running; omega)
      (by show p.running + (cs.take k).length ≤ 2147483647; omega)⟩
  have a1 : sA.pool.idling = 0 := by
    rw [hsA]; show p.idling - ((cs.take k).length : Int) = 0; omega
  have a3 : sA.pool.producers = [] := by
    rw [hsA]; show p.producers.drop (cs.take k).length = []
    rw [List.drop_eq_nil_iff]; omega
  have a4 : sA.pool.waiting = 0 := by rw [hsA]; exact hwt
  have a5 : sA.parked = [] := by rw [hsA]; rfl
  have a6 : sA.held = (cs.take k).zip p.producers := by
    rw [hsA]; show [] ++ (cs.take k).zip p.producers = _; simp
  have a7 : sA.wq.waiters = [] := by rw [hsA]; rfl
  have a8 : sA.closed = [] := by rw [hsA]; rfl
  have a9 : sA.nextChan = 0 := by rw [hsA]; rfl
  have a10 : ∀ e ∈ sA.log, e.isRequeue = false := by
    rw [hsA]
    intro e he
    have he' : e ∈ ([] : List Event) ++ ((cs.take k).zip p.producers).map
        (fun e => Event.acquired e.1 e.2) := he
    simp only [List.nil_append, List.mem_map] at he'
    obtain ⟨x, _, rfl⟩ := he'
    rfl
  obtain ⟨sB, hsB, hB⟩ : ∃ sB, sB = _ ∧
      run sA ((cs.drop k).map Action.get) = .ok sB :=
    ⟨_, rfl, run_gets_block (cs.drop k) sA (by omega) hnd
      (by intro d _; rw [a5]; simp) (by omega) (by rw [a4]; omega)⟩
  have hrun : run (Sys.init p) (cs.map Action.get) = .ok sB := by
    have := (run_append_of_ok ((cs.drop k).map Action.get) hA).trans hB
    rwa [← List.map_append, List.take_append_drop] at this
  have b1 : sB.pool.idling = 0 := by rw [hsB]; exact a1
  have b3 : sB.pool.producers = [] := by rw [hsB]; exact a3
  have b4 : sB.pool.waiting = m := by
    rw [hsB]; show sA.pool.waiting + ((cs.drop k).length : Int) = m; rw [a4, hdr]; simp
  have b5 : sB.parked = (cs.drop k).zip (List.range' 0 m) := by
    rw [hsB]
    show sA.parked ++ (cs.drop k).zip (List.range' sA.nextChan (cs.drop k).length) = _
    rw [a5, a9, hdr]; rfl
  have b6 : sB.held = (cs.take k).zip p.producers := by rw [hsB]; exact a6
  have b7 : sB.wq.waiters = List.range' 0 m := by
    rw [hsB]; show sA.wq.waiters ++ List.range' sA.nextChan (cs.drop k).length = _
    rw [a7, a9, hdr]; rfl
  have b8 : sB.closed = [] := by rw [hsB]; exact a8
  have b10 : ∀ e ∈ sB.log, e.isRequeue = false := by
    rw [hsB]
    intro e he
    have he' : e ∈ sA.log ++ ((cs.drop k).zip
        (List.range' sA.nextChan (cs.drop k).length)).map
        (fun e => Event.blocked e.1 e.2) := he
    rcases List.mem_append.mp he' with h | h
    · exact a10 e h
    · simp only [List.mem_map] at h
      obtain ⟨x, _, rfl⟩ := h
      rfl
  have hsnd : ((cs.take k).zip p.producers).map Prod.snd = p.producers :=
    List.map_snd_zip _ _ (by omega)
  have hzip : ((cs.take k).zip p.producers).map (fun e => e.2.producerID)
      = p.producers.map (fun pd => pd.producerID) := by
    conv_rhs => rw [← hsnd]
    rw [List.map_map]
    rfl
  have hE0 : Excl (Sys.init p) := by simpa [Excl, Sys.init] using hid
  have hEB : Excl sB := run_invariant Excl Excl_step _ _ _ hE0 hrun
  have hTB : TicketOrder sB :=
    run_invariant TicketOrder TicketOrder_step _ _ _ (TicketOrder_init p) hrun
  have hD : DrainInv m 0 sB := by
    refine ⟨hTB, Nat.zero_le _, ?_, ?_, ?_, ?_, ?_, ?_, b10, hEB⟩
    · rw [b4]; simp
    · rw [b7]; simp
    · rw [b1]; simp
    · unfold firedParked; rw [b8]; simp
    · rw [b3]; simp
    · rw [b5, List.map_snd_zip _ _ (by simp; omega)]
      exact List.nodup_range' 0 m
  refine ⟨sB, hrun, b6, ?_, ?_, ?_, ?_, b4, ?_, ?_, ?_⟩
  · rw [b6, List.length_zip]; omega
  · rw [b6, hzip]; exact hid
  · rw [b5, List.map_fst_zip _ _ (by simp; omega)]
  · rw [b5, List.length_zip]; simp; omega
  · rw [b7]; simp
  · rcases drain_run hm acts 0 sB hD hacts (by omega) with h | ⟨s', h, _⟩
    · rw [h]; simp
    · rw [h]; simp
  · intro s2 h2
    rcases drain_run hm acts 0 sB hD hacts (by omega) with h | ⟨s', h, hI⟩
    · rw [h] at h2; simp at h2
    · rw [h] at h2
      cases h2
      obtain ⟨_, _, hw, _, _, _, _, _, hlog, hE⟩ := hI
      unfold Excl at hE
      have h1 := (List.nodup_append.mp hE).1
      refine ⟨hlog, ?_, h1, ?_⟩
      · intro hrm
        rw [hw, hrm]; simp
      · intro e1 he1 e2 he2 hEq
        exact List.inj_on_of_nodup_map h1 he1 he2 hEq

/-- C5, with `k = 1` and `m = 2`: caller 0 holds the only handle, callers 1 and
2 are parked; the handle is released and claimed twice. -/
theorem scenario_drain_witness :
    (∃ s1, run (Sys.init (demoPool 1 1 0 0 1 [demoHandle 0]))
        (([0, 1, 2] : List Nat).map Action.get) = .ok s1 ∧
      s1.held = (([0, 1, 2] : List Nat).take 1).zip
        (demoPool 1 1 0 0 1 [demoHandle 0]).producers ∧
      s1.held.length = 1 ∧
      (s1.held.map (fun e => e.2.producerID)).Nodup ∧
      s1.parked.map Prod.fst = ([0, 1, 2] : List Nat).drop 1 ∧ s1.parked.length = 2 ∧
      s1.pool.waiting = (2 : Nat) ∧ s1.wq.waiters.length = 2 ∧
      run s1 [.put 0 (demoHandle 0), .wake 1, .put 1 (demoHandle 0), .wake 2] ≠ .panic ∧
      ∀ s2, run s1 [.put 0 (demoHandle 0), .wake 1, .put 1 (demoHandle 0), .wake 2]
          = .ok s2 →
        (∀ e ∈ s2.log, e.isRequeue = false) ∧
        (releases [.put 0 (demoHandle 0), .wake 1, .put 1 (demoHandle 0), .wake 2] = 2 →
          s2.pool.waiting = 0) ∧
        (s2.held.map (fun e => e.2.producerID)).Nodup ∧
        (∀ e1 ∈ s2.held, ∀ e2 ∈ s2.held,
          e1.2.producerID = e2.2.producerID → e1 = e2)) ∧
    run (Sys.init (demoPool 1 1 0 0 1 [demoHandle 0]))
        [.get 0, .get 1, .get 2,
         .put 0 (demoHandle 0), .wake 1, .put 1 (demoHandle 0), .wake 2]
      = .ok { pool := demoPool 1 1 1 0 2 []
              wq := { waiters := [] }, closed := [0, 1], nextChan := 2
              held := [(2, demoHandle 0)], parked := []
              log := [.acquired 0 (demoHandle 0), .blocked 1 0, .blocked 2 1,
                      .released 0 (demoHandle 0), .claimed 1 (demoHandle 0),
                      .released 1 (demoHandle 0), .claimed 2 (demoHandle 0)] } :=
  ⟨scenario_drain demoEnv [.WithInitCapacity 1, .WithMaxCapacity 1]
    (demoPool 1 1 0 0 1 [demoHandle 0]) 1 2 [0, 1, 2]
    [.put 0 (demoHandle 0), .wake 1, .put 1 (demoHandle 0), .wake 2]
    (by decide) (by decide) rfl rfl (by decide) rfl (by decide) (by decide) (by decide),
   by decide⟩

/-- C6 (the code breaks it): in the state reached by one `GetConn` on the pool
with one handle (`waiting = 0`, `running = 1`), `PutConn` of that handle
appends it to the idle list and increments `idling`, but `running` is still 1
afterwards: it is not decremented. -/
theorem putconn_keeps_running :
    run (Sys.init (demoPool 1 1 0 0 1 [demoHandle 0])) [.get 0]
      = .ok { pool := demoPool 1 1 1 0 0 []
              wq := { waiters := [] }, closed := [], nextChan := 0
              held := [(0, demoHandle 0)], parked := []
              log := [.acquired 0 (demoHandle 0)] } ∧
    PutConn (demoPool 1 1 1 0 0 []) { waiters := [] } [] (demoHandle 0)
      = .ok (demoPool 1 1 1 0 1 [demoHandle 0]) { waiters := [] } [] ∧
    (demoPool 1 1 1 0 1 [demoHandle 0]).running
      ≠ (demoPool 1 1 1 0 0 []).running - 1 := by
  refine ⟨by decide, by decide, by decide⟩

/-- C8: in every state reached from a pool returned by `NewPool`, the only pool
of the process, by a schedule of any length, no ticket has been fired twice;
`PutConn` with `waiting > 0` finds a ticket, removes the head of the wait queue
and keeps the other tickets in order, decrements `waiting` by exactly 1 and
fires that ticket only; `PutConn` with `waiting = 0` fires nothing and leaves
the queue as it was. -/
theorem putconn_fires_head (env : Env) (opts : List PoolOption) (p : Pool)
    (acts : List Action) (s : Sys) (pd : producer)
    (hnew : NewPool env opts = .ok p)
    (hrun : run (Sys.init p) acts = .ok s) :
    s.closed.Nodup ∧
    (0 < s.pool.waiting → ∃ ch rest, s.wq.waiters = ch :: rest ∧
      PutConn s.pool s.wq s.closed pd = .ok { s.pool with
        waiting := s.pool.waiting - 1
        producers := s.pool.producers ++ [pd]
        idling := wrapInt32 (s.pool.idling + 1) } { waiters := rest } (s.closed ++ [ch])) ∧
    (s.pool.waiting = 0 →
      PutConn s.pool s.wq s.closed pd = .ok { s.pool with
        producers := s.pool.producers ++ [pd]
        idling := wrapInt32 (s.pool.idling + 1) } s.wq s.closed) := by
  have hW : WaitInv s := run_invariant WaitInv WaitInv_step acts _ _ (WaitInv_init hnew) hrun
  have hT : TicketOrder s :=
    run_invariant TicketOrder TicketOrder_step acts _ _ (TicketOrder_init p) hrun
  have hnd : (s.closed ++ s.wq.waiters).Nodup := by
    rw [hT]; exact List.nodup_range _
  unfold WaitInv at hW
  refine ⟨(List.nodup_append.mp hnd).1, ?_, ?_⟩
  · intro hw
    cases hq : s.wq.waiters with
    | nil =>
      rw [hq] at hW
      have h0 : wrapInt32 ((([] : List Nat).length : Nat) : Int) = 0 := by decide
      rw [h0] at hW
      omega
    | cons ch rest =>
      refine ⟨ch, rest, rfl, ?_⟩
      rw [hq] at hnd
      have hch : ch ∉ s.closed := fun hmem =>
        (List.disjoint_of_nodup_append hnd) hmem (List.mem_cons_self _ _)
      have hr := wrapInt32_range ((s.wq.waiters.length : Nat) : Int)
      rw [← hW] at hr
      have w1 : wrapInt32 (s.pool.waiting - 1) = s.pool.waiting - 1 :=
        wrapInt32_of_range (by omega) (by omega)
      simp only [PutConn, if_pos hw, hq, if_neg hch, w1]
  · intro hw
    have hw' : ¬ s.pool.waiting > 0 := by omega
    simp only [PutConn, if_neg hw']

/-- C8, in the state where caller 0 holds the only handle and caller 1 is
parked on ticket 0. -/
theorem putconn_fires_head_witness :
    ([] : List Nat).Nodup ∧
    (0 < (demoPool 1 1 1 1 0 []).waiting → ∃ ch rest, [0] = ch :: rest ∧
      PutConn (demoPool 1 1 1 1 0 []) { waiters := [0] } [] (demoHandle 0)
        = .ok { demoPool 1 1 1 1 0 [] with
            waiting := (demoPool 1 1 1 1 0 []).waiting - 1
            producers := (demoPool 1 1 1 1 0 []).producers ++ [demoHandle 0]
            idling := wrapInt32 ((demoPool 1 1 1 1 0 []).idling + 1) }
          { waiters := rest } ([] ++ [ch])) ∧
    ((demoPool 1 1 1 1 0 []).waiting = 0 →
      PutConn (demoPool 1 1 1 1 0 []) { waiters := [0] } [] (demoHandle 0)
        = .ok { demoPool 1 1 1 1 0 [] with
            producers := (demoPool 1 1 1 1 0 []).producers ++ [demoHandle 0]
            idling := wrapInt32 ((demoPool 1 1 1 1 0 []).idling + 1) }
          { waiters := [0] } []) :=
  putconn_fires_head demoEnv [.WithInitCapacity 1, .WithMaxCapacity 1]
    (demoPool 1 1 0 0 1 [demoHandle 0])
    [.get 0, .get 1]
    { pool := demoPool 1 1 1 1 0 []
      wq := { waiters := [0] }, closed := [], nextChan := 1
      held := [(0, demoHandle 0)], parked := [(1, 0)]
      log := [.acquired 0 (demoHandle 0), .blocked 1 0] }
    (demoHandle 0) rfl (by decide)

/-- C9 (as stated it fails): the pool built with `initCapacity = 0` and
`maxCapacity = 100` (its default) has an empty idle list and
`running + idling = 0 < 100`, yet `GetConn` creates no handle: it enqueues
ticket 0, increments `waiting` and parks. -/
theorem no_growth_on_demand :
    NewPool demoEnv [.WithInitCapacity 0] = .ok (demoPool 0 100 0 0 0 []) ∧
    (demoPool 0 100 0 0 0 []).producers = [] ∧
    (demoPool 0 100 0 0 0 []).running + (demoPool 0 100 0 0 0 []).idling
      < (demoPool 0 100 0 0 0 []).maxCapacity ∧
    GetConn (demoPool 0 100 0 0 0 []) newWaitQueue 0
      = .blocked (demoPool 0 100 0 1 0 []) { waiters := [0] } 0 := by
  refine ⟨rfl, rfl, by decide, by decide⟩

/-- C9 (amended): `GetConn` never creates a handle.  For every pool state with
`idling <= 0`, whatever `running + idling` and `maxCapacity` are, it appends a
fresh ticket to the wait queue, increments `waiting` (in `int32`) and parks on
the ticket, leaving the idle list, `running` and `idling` unchanged; and in
every state reached from a pool returned by `NewPool`, the held handles
together with the idle handles are exactly the handles that `NewPool`
created. -/
theorem getconn_blocks_without_growth (env : Env) (opts : List PoolOption) (p : Pool)
    (acts : List Action) (s : Sys) (ch : Nat)
    (_hnew : NewPool env opts = .ok p)
    (hrun : run (Sys.init p) acts = .ok s) :
    (s.held.map Prod.snd ++ s.pool.producers).Perm p.producers ∧
    (s.pool.idling ≤ 0 →
      GetConn s.pool s.wq ch
        = .blocked { s.pool with waiting := wrapInt32 (s.pool.waiting + 1) }
            { waiters := s.wq.waiters ++ [ch] } ch) ∧
    ∀ (q : Pool) (wq : waitQueue), q.idling ≤ 0 →
      GetConn q wq ch = .blocked { q with waiting := wrapInt32 (q.waiting + 1) }
        { waiters := wq.waiters ++ [ch] } ch := by
  have h0 : Conserved p.producers (Sys.init p) := by
    simp [Conserved, Sys.init]
  refine ⟨run_invariant _ (Conserved_step p.producers) acts _ _ h0 hrun, ?_, ?_⟩
  · intro hi
    simp only [GetConn, GetConn.DoubleCheck, if_pos hi]
  · intro q wq hi
    simp only [GetConn, GetConn.DoubleCheck, if_pos hi]

/-- C9 (amended), on the pool with one handle after an acquisition by caller 0:
caller 0 holds the only handle and the next `GetConn` parks although
`running + idling = 1 < 100`. -/
theorem getconn_blocks_without_growth_witness :
    (([(0, demoHandle 0)] : List (Nat × producer)).map Prod.snd
        ++ (demoPool 1 100 1 0 0 []).producers).Perm
      (demoPool 1 100 0 0 1 [demoHandle 0]).producers ∧
    ((demoPool 1 100 1 0 0 []).idling ≤ 0 →
      GetConn (demoPool 1 100 1 0 0 []) { waiters := [] } 0
        = .blocked { demoPool 1 100 1 0 0 [] with
            waiting := wrapInt32 ((demoPool 1 100 1 0 0 []).waiting + 1) }
            { waiters := [] ++ [0] } 0) ∧
    ∀ (q : Pool) (wq : waitQueue), q.idling ≤ 0 →
      GetConn q wq 0 = .blocked { q with waiting := wrapInt32 (q.waiting + 1) }
        { waiters := wq.waiters ++ [0] } 0 :=
  getconn_blocks_without_growth demoEnv [.WithInitCapacity 1]
    (demoPool 1 100 0 0 1 [demoHandle 0]) [.get 0]
    { pool := demoPool 1 100 1 0 0 []
      wq := { waiters := [] }, closed := [], nextChan := 0
      held := [(0, demoHandle 0)], parked := []
      log := [.acquired 0 (demoHandle 0)] }
    0 rfl (by decide)

/-- C10 (as stated it fails): on the pool with one handle, caller 0 holds the
handle and caller 1 is parked (`waiting = 1`); `PutConn` of the handle places
it in the idle list, and caller 2, calling `GetConn` before caller 1 wakes,
obtains that handle while caller 1 is still parked on its fired ticket. -/
theorem handoff_stolen :
    run (Sys.init (demoPool 1 1 0 0 1 [demoHandle 0])) [.get 0, .get 1]
      = .ok { pool := demoPool 1 1 1 1 0 []
              wq := { waiters := [0] }, closed := [], nextChan := 1
              held := [(0, demoHandle 0)], parked := [(1, 0)]
              log := [.acquired 0 (demoHandle 0), .blocked 1 0] } ∧
    PutConn (demoPool 1 1 1 1 0 []) { waiters := [0] } [] (demoHandle 0)
      = .ok (demoPool 1 1 1 0 1 [demoHandle 0]) { waiters := [] } [0] ∧
    demoHandle 0 ∈ (demoPool 1 1 1 0 1 [demoHandle 0]).producers ∧
    run (Sys.init (demoPool 1 1 0 0 1 [demoHandle 0]))
        [.get 0, .get 1, .put 0 (demoHandle 0), .get 2]
      = .ok { pool := demoPool 1 1 2 0 0 []
              wq := { waiters := [] }, closed := [0], nextChan := 1
              held := [(2, demoHandle 0)], parked := [(1, 0)]
              log := [.acquired 0 (demoHandle 0), .blocked 1 0,
                      .released 0 (demoHandle 0), .acquired 2 (demoHandle 0)] } := by
  refine ⟨by decide, by decide, by decide, by decide⟩

/-- C10 (amended): for every pool state with `waiting > 0` whose wait queue has
an open head ticket, `PutConn h` fires that ticket, appends `h` at the tail of
the idle list and increments `idling`.  The handle is thus handed over through
the idle list: when the list was empty and `idling` was 0, a `GetConn` that
runs before the wake step of the fired waiter returns `h` on the fast path, and
the wake step then finds `idling <= 0` and enqueues a fresh ticket. -/
theorem handoff_through_idle_list (p : Pool) (wq : waitQueue) (closed : List Nat)
    (h : producer) (ch : Nat) (rest : List Nat) (ch2 : Nat)
    (hw : 0 < p.waiting) (hq : wq.waiters = ch :: rest) (hcl : ch ∉ closed) :
    ∃ p1, PutConn p wq closed h = .ok p1 { waiters := rest } (closed ++ [ch]) ∧
      p1.producers = p.producers ++ [h] ∧
      p1.idling = wrapInt32 (p.idling + 1) ∧
      (p.producers = [] → p.idling = 0 →
        ∃ p2, GetConn p1 { waiters := rest } ch2 = .returned p2 { waiters := rest } h ∧
          p2.producers = [] ∧
          ∃ p3, GetConn.wake p2 { waiters := rest } ch2
            = .blocked p3 { waiters := rest ++ [ch2] } ch2) := by
  refine ⟨{ p with
      waiting := wrapInt32 (p.waiting - 1)
      producers := p.producers ++ [h]
      idling := wrapInt32 (p.idling + 1) },
    by simp only [PutConn, if_pos hw, hq, if_neg hcl], rfl, rfl, ?_⟩
  intro hp hi
  have e1 : wrapInt32 (0 + 1) = 1 := by decide
  have e2 : wrapInt32 ((1 : Int) - 1) = 0 := by decide
  have n1 : ¬ ((1 : Int) ≤ 0) := by decide
  have n2 : ¬ ((0 : Int) > 0) := by decide
  have n3 : (0 : Int) ≤ 0 := by decide
  refine ⟨{ p with
      waiting := wrapInt32 (p.waiting - 1)
      producers := []
      idling := 0
      running := wrapInt32 (p.running + 1) }, ?_, rfl,
    { p with
      waiting := wrapInt32 (wrapInt32 (p.waiting - 1) + 1)
      producers := []
      idling := 0
      running := wrapInt32 (p.running + 1) }, ?_⟩
  · simp only [GetConn, GetConn.DoubleCheck, hp, hi, e1, e2, if_neg n1, List.nil_append]
  · simp only [GetConn.wake, GetConn.DoubleCheck, if_neg n2, if_pos n3]

/-- C10 (amended), in the state where caller 0 holds the only handle and
caller 1 is parked on ticket 0. -/
theorem handoff_through_idle_list_witness :
    ∃ p1, PutConn (demoPool 1 1 1 1 0 []) { waiters := [0] } [] (demoHandle 0)
        = .ok p1 { waiters := [] } ([] ++ [0]) ∧
      p1.producers = (demoPool 1 1 1 1 0 []).producers ++ [demoHandle 0] ∧
      p1.idling = wrapInt32 ((demoPool 1 1 1 1 0 []).idling + 1) ∧
      ((demoPool 1 1 1 1 0 []).producers = [] → (demoPool 1 1 1 1 0 []).idling = 0 →
        ∃ p2, GetConn p1 { waiters := [] } 1 = .returned p2 { waiters := [] } (demoHandle 0) ∧
          p2.producers = [] ∧
          ∃ p3, GetConn.wake p2 { waiters := [] } 1
            = .blocked p3 { waiters := [] ++ [1] } 1) :=
  handoff_through_idle_list (demoPool 1 1 1 1 0 []) { waiters := [0] } []
    (demoHandle 0) 0 [] 1 (by decide) rfl (by decide)

/-- C11 (the code breaks it): on the pool with one handle, caller 0 holds the
handle and caller 1 is parked (`running = 1`, `idling = 0`, `waiting = 1`);
after `PutConn` and the wake step of caller 1, which claims the handle,
`waiting = 0` and `running = 1`, but `idling = 1` although the idle list is
empty: the wake path returns without decrementing `idling`. -/
theorem handoff_leaves_idling_raised :
    run (Sys.init (demoPool 1 1 0 0 1 [demoHandle 0])) [.get 0, .get 1]
      = .ok { pool := demoPool 1 1 1 1 0 []
              wq := { waiters := [0] }, closed := [], nextChan := 1
              held := [(0, demoHandle 0)], parked := [(1, 0)]
              log := [.acquired 0 (demoHandle 0), .blocked 1 0] } ∧
    run (Sys.init (demoPool 1 1 0 0 1 [demoHandle 0]))
        [.get 0, .get 1, .put 0 (demoHandle 0), .wake 1]
      = .ok { pool := demoPool 1 1 1 0 1 []
              wq := { waiters := [] }, closed := [0], nextChan := 1
              held := [(1, demoHandle 0)], parked := []
              log := [.acquired 0 (demoHandle 0), .blocked 1 0,
                      .released 0 (demoHandle 0), .claimed 1 (demoHandle 0)] } ∧
    (demoPool 1 1 1 0 1 []).idling ≠ (demoPool 1 1 1 1 0 []).idling ∧
    (demoPool 1 1 1 0 1 []).producers = [] := by
  refine ⟨by decide, by decide, by decide, rfl⟩

/-- C12: for every list of options whose `initCapacity` is an `int32` that is
not negative, when the topic lookup returns a set that contains the configured
topic and the id generator succeeds on each of its first `initCapacity` calls,
`NewPool` returns a pool and no error; it called the id generator exactly
`initCapacity` times, the idle list holds the handles made from these ids in
the order of creation, `idling = initCapacity`, `running = 0` and
`waiting = 0`. -/
theorem newpool_succeeds (env : Env) (opts : List PoolOption)
    (topics : List String) (ids : Nat → Nat)
    (h0 : 0 ≤ (configured opts).initCapacity)
    (h32 : (configured opts).initCapacity ≤ 2147483647)
    (hlook : env.getKafkaTopics (configured opts).BrokerAddress = .ok topics)
    (hmem : (configured opts).Topic ∈ topics)
    (hgen : ∀ i, i < (configured opts).initCapacity.toNat →
      env.generateSonyflakeID i = .ok (ids i)) :
    ∃ p, NewPool env opts = .ok p ∧
      NewPool.idCalls env opts = (configured opts).initCapacity.toNat ∧
      p.producers = (List.range (configured opts).initCapacity.toNat).map (fun i =>
        { producerID := ids i, writerAddr := (configured opts).BrokerAddress,
          writerTopic := (configured opts).Topic }) ∧
      (p.producers.length : Int) = (configured opts).initCapacity ∧
      p.idling = (configured opts).initCapacity ∧ p.running = 0 ∧ p.waiting = 0 := by
  obtain ⟨c1, c2, c3⟩ := foldl_apply_counters opts defaultPoolInfo
  unfold configured at h0 h32 hlook hmem hgen ⊢
  obtain ⟨p, e1, e2, e3⟩ := addInitial_ok env ids
    (opts.foldl (fun i opt => opt.apply i) defaultPoolInfo).initCapacity.toNat 0
    { opts.foldl (fun i opt => opt.apply i) defaultPoolInfo with producers := [] }
    (by intro j hj; simpa using hgen j hj)
  obtain ⟨s1, s2, _, _, _, s6⟩ := addInitial_spec env _ _ _ _ e1
  have hnew : NewPool env opts = .ok p := by
    unfold NewPool Pool.initialise
    simp only [hlook, if_pos hmem]
    exact e1
  refine ⟨p, hnew, ?_, ?_, ?_, ?_, ?_, ?_⟩
  · unfold NewPool.idCalls
    simp only [hlook, if_pos hmem]
    exact e3
  · rw [e2, List.range_eq_range']
    rfl
  · rw [e2]
    simp only [List.nil_append, List.length_map, List.length_range']
    omega
  · have hi := s6 (by show 0 ≤ (opts.foldl (fun i opt => opt.apply i) defaultPoolInfo).idling
                      rw [c3]; decide)
      (by show (opts.foldl (fun i opt => opt.apply i) defaultPoolInfo).idling + _ ≤ _
          rw [c3]
          have : (defaultPoolInfo.idling : Int) = 0 := rfl
          omega)
    rw [hi]
    show (opts.foldl (fun i opt => opt.apply i) defaultPoolInfo).idling + _ = _
    rw [c3]
    have : (defaultPoolInfo.idling : Int) = 0 := rfl
    omega
  · rw [s1]; exact c1
  · rw [s2]; exact c2

/-- C12, with `initCapacity = 2`, the topic `bus_1` and the ids 0 and 1. -/
theorem newpool_succeeds_witness :
    ∃ p, NewPool demoEnv [.WithInitCapacity 2, .WithMaxCapacity 2] = .ok p ∧
      NewPool.idCalls demoEnv [.WithInitCapacity 2, .WithMaxCapacity 2]
        = (configured [.WithInitCapacity 2, .WithMaxCapacity 2]).initCapacity.toNat ∧
      p.producers
        = (List.range (configured [.WithInitCapacity 2, .WithMaxCapacity 2]).initCapacity.toNat).map
          (fun i =>
            { producerID := i,
              writerAddr := (configured [.WithInitCapacity 2, .WithMaxCapacity 2]).BrokerAddress,
              writerTopic := (configured [.WithInitCapacity 2, .WithMaxCapacity 2]).Topic }) ∧
      (p.producers.length : Int)
        = (configured [.WithInitCapacity 2, .WithMaxCapacity 2]).initCapacity ∧
      p.idling = (configured [.WithInitCapacity 2, .WithMaxCapacity 2]).initCapacity ∧
      p.running = 0 ∧ p.waiting = 0 :=
  newpool_succeeds demoEnv [.WithInitCapacity 2, .WithMaxCapacity 2] ["bus_1"] (fun i => i)
    (by decide) (by decide) rfl (by decide) (fun _ _ => rfl)

/-- C13: `NewPool` returns an error, and so no pool, exactly when the topic
lookup returns an error, or the configured topic is not in the returned set,
or the id generator fails on one of its first `initCapacity` calls; and when
the lookup fails or the topic is absent, the id generator is not called. -/
theorem newpool_fails_iff (env : Env) (opts : List PoolOption) :
    ((∃ e, NewPool env opts = .error e) ↔
      ((∃ e, env.getKafkaTopics (configured opts).BrokerAddress = .error e) ∨
       (∃ topics, env.getKafkaTopics (configured opts).BrokerAddress = .ok topics ∧
          (configured opts).Topic ∉ topics) ∨
       (∃ i, i < (configured opts).initCapacity.toNat ∧
          ∃ e, env.generateSonyflakeID i = .error e))) ∧
    (((∃ e, env.getKafkaTopics (configured opts).BrokerAddress = .error e) ∨
      (∃ topics, env.getKafkaTopics (configured opts).BrokerAddress = .ok topics ∧
          (configured opts).Topic ∉ topics)) →
      NewPool.idCalls env opts = 0) := by
  unfold configured NewPool NewPool.idCalls Pool.initialise
  cases hk : env.getKafkaTopics
      (opts.foldl (fun i opt => opt.apply i) defaultPoolInfo).BrokerAddress with
  | error e =>
    simp only [hk]
    refine ⟨⟨fun _ => Or.inl ⟨e, rfl⟩, fun _ => ⟨e, rfl⟩⟩, fun _ => trivial⟩
  | ok topics =>
    simp only [hk]
    by_cases hm : (opts.foldl (fun i opt => opt.apply i) defaultPoolInfo).Topic ∈ topics
    · simp only [if_pos hm]
      have key := addInitial_error_iff env
        (opts.foldl (fun i opt => opt.apply i) defaultPoolInfo).initCapacity.toNat 0
        { opts.foldl (fun i opt => opt.apply i) defaultPoolInfo with producers := [] }
      simp only [Nat.zero_add] at key
      constructor
      · constructor
        · intro h
          exact Or.inr (Or.inr (key.mp h))
        · rintro (⟨e, he⟩ | ⟨t, ht, hnot⟩ | h)
          · cases he
          · cases ht
            exact absurd hm hnot
          · exact key.mpr h
      · rintro (⟨e, he⟩ | ⟨t, ht, hnot⟩)
        · cases he
        · cases ht
          exact absurd hm hnot
    · simp only [if_neg hm]
      refine ⟨⟨fun _ => Or.inr (Or.inl ⟨topics, rfl, hm⟩), fun _ => ⟨_, rfl⟩⟩, fun _ => trivial⟩

/-- C13, with a topic that the broker does not know: `NewPool` returns an error
and the id generator is not called. -/
theorem newpool_fails_iff_witness :
    (∃ e, NewPool demoEnv [.WithTopic "absent"] = .error e) ∧
    NewPool.idCalls demoEnv [.WithTopic "absent"] = 0 :=
  ⟨(newpool_fails_iff demoEnv [.WithTopic "absent"]).1.mpr
      (Or.inr (Or.inl ⟨["bus_1"], rfl, by decide⟩)),
   (newpool_fails_iff demoEnv [.WithTopic "absent"]).2
      (Or.inr ⟨["bus_1"], rfl, by decide⟩)⟩

/-- C14 (the code breaks it): on a pool whose idle list holds the handles 0 and
1, with a closer that fails on handle 0, `ClosePool` calls the closer on
handle 0 only, returns its error, and leaves both handles in the idle list:
handle 1 is never closed. -/
theorem close_stops_at_first_failure :
    ClosePool (demoPool 2 2 0 0 2 [demoHandle 0, demoHandle 1])
        (fun pd => if pd.producerID = 0 then some "close failed" else none)
      = (demoPool 2 2 0 0 2 [demoHandle 0, demoHandle 1], [demoHandle 0],
          some "close failed") ∧
    demoHandle 1 ∉ ([demoHandle 0] : List producer) := by
  refine ⟨by decide, by decide⟩

/-- C15: for every pool and every closer that succeeds on each handle of the
idle list, `ClosePool` calls the closer once on each idle handle, in list
order, returns no error, and leaves the idle list empty (the counters are not
touched). -/
theorem close_all_on_success (p : Pool) (closer : producer → Option String)
    (h : ∀ pd ∈ p.producers, closer pd = none) :
    ClosePool p closer = ({ p with producers := [] }, p.producers, none) := by
  unfold ClosePool
  rw [closeLoop_ok closer p.producers h]

/-- C15, on a pool with two idle handles. -/
theorem close_all_on_success_witness :
    ClosePool (demoPool 2 2 0 0 2 [demoHandle 0, demoHandle 1]) (fun _ => none)
      = ({ demoPool 2 2 0 0 2 [demoHandle 0, demoHandle 1] with producers := [] },
          (demoPool 2 2 0 0 2 [demoHandle 0, demoHandle 1]).producers, none) :=
  close_all_on_success (demoPool 2 2 0 0 2 [demoHandle 0, demoHandle 1]) (fun _ => none)
    (fun _ _ => rfl)

/-- C16 (the code breaks it): two pools `P` (handle 0, `maxCapacity = 1`) and
`Q` (handle 1, `maxCapacity = 2`) in one process share the package-level queue.  A caller takes the handle of `Q`
and a second caller of `Q` parks on ticket 0; a caller takes the handle of `P`
and a second caller of `P` parks on ticket 1; the `PutConn` on `P` then
removes and fires ticket 0, the ticket of the caller blocked on `Q`, and the
ticket of the caller blocked on `P` stays queued with `P.waiting = 0`. -/
theorem release_fires_other_pools_ticket :
    NewPool demoEnv [.WithInitCapacity 1, .WithMaxCapacity 1]
      = .ok (demoPool 1 1 0 0 1 [demoHandle 0]) ∧
    NewPool { demoEnv with generateSonyflakeID := fun i => .ok (i + 1) }
        [.WithInitCapacity 1, .WithMaxCapacity 2]
      = .ok (demoPool 1 2 0 0 1 [demoHandle 1]) ∧
    GetConn (demoPool 1 2 0 0 1 [demoHandle 1]) newWaitQueue 0
      = .returned (demoPool 1 2 1 0 0 []) { waiters := [] } (demoHandle 1) ∧
    GetConn (demoPool 1 2 1 0 0 []) { waiters := [] } 0
      = .blocked (demoPool 1 2 1 1 0 []) { waiters := [0] } 0 ∧
    GetConn (demoPool 1 1 0 0 1 [demoHandle 0]) { waiters := [0] } 1
      = .returned (demoPool 1 1 1 0 0 []) { waiters := [0] } (demoHandle 0) ∧
    GetConn (demoPool 1 1 1 0 0 []) { waiters := [0] } 1
      = .blocked (demoPool 1 1 1 1 0 []) { waiters := [0, 1] } 1 ∧
    PutConn (demoPool 1 1 1 1 0 []) { waiters := [0, 1] } [] (demoHandle 0)
      = .ok (demoPool 1 1 1 0 1 [demoHandle 0]) { waiters := [1] } [0] := by
  refine ⟨rfl, rfl, by decide, by decide, by decide, by decide, by decide⟩

/-- C17: in every state reached from a pool returned by `NewPool` whose handles
have distinct ids, and for every closer, `ClosePool` calls the closer only on
handles of the idle list (on a leading part of it), on no handle held by a
caller, closes no channel, and leaves the wait queue, the parked callers, the
held handles and the counters `running`, `idling` and `waiting` as they
were. -/
theorem close_touches_idle_only (env : Env) (opts : List PoolOption) (p : Pool)
    (acts : List Action) (s : Sys) (closer : producer → Option String)
    (_hnew : NewPool env opts = .ok p)
    (hid : (p.producers.map (fun pd => pd.producerID)).Nodup)
    (hrun : run (Sys.init p) acts = .ok s) :
    (s.close closer).2.1 <+: s.pool.producers ∧
    (∀ e ∈ s.held, ∀ pd ∈ (s.close closer).2.1, e.2.producerID ≠ pd.producerID) ∧
    (s.close closer).1.closed = s.closed ∧
    (s.close closer).1.wq = s.wq ∧
    (s.close closer).1.parked = s.parked ∧
    (s.close closer).1.held = s.held ∧
    (s.close closer).1.pool.running = s.pool.running ∧
    (s.close closer).1.pool.idling = s.pool.idling ∧
    (s.close closer).1.pool.waiting = s.pool.waiting := by
  obtain ⟨c1, c2, c3, c4, _⟩ := ClosePool_counters s.pool closer
  have hpre : (s.close closer).2.1 <+: s.pool.producers := by
    show (ClosePool s.pool closer).2.1 <+: s.pool.producers
    rw [c4]
    exact closeLoop_prefix closer s.pool.producers
  have h0 : Excl (Sys.init p) := by simpa [Excl, Sys.init] using hid
  have hE : Excl s := run_invariant Excl Excl_step acts _ _ h0 hrun
  unfold Excl at hE
  have hdis := (List.nodup_append.mp hE).2.2
  refine ⟨hpre, ?_, rfl, rfl, rfl, rfl, c1, c2, c3⟩
  intro e he pd hpd hEq
  exact hdis (List.mem_map.mpr ⟨e, he, rfl⟩)
    (List.mem_map.mpr ⟨pd, hpre.subset hpd, hEq.symm⟩)

/-- C17, on the pool of two handles where caller 0 holds handle 0: the closer
is called on handle 1 only. -/
theorem close_touches_idle_only_witness :
    (Sys.close
      { pool := demoPool 2 2 1 0 1 [demoHandle 1]
        wq := { waiters := [] }, closed := [], nextChan := 0
        held := [(0, demoHandle 0)], parked := []
        log := [.acquired 0 (demoHandle 0)] } (fun _ => none)).2.1 = [demoHandle 1] ∧
    ((Sys.close
      { pool := demoPool 2 2 1 0 1 [demoHandle 1]
        wq := { waiters := [] }, closed := [], nextChan := 0
        held := [(0, demoHandle 0)], parked := []
        log := [.acquired 0 (demoHandle 0)] } (fun _ => none)).2.1
        <+: [demoHandle 1] ∧
      (∀ e ∈ ([(0, demoHandle 0)] : List (Nat × producer)),
        ∀ pd ∈ (Sys.close
          { pool := demoPool 2 2 1 0 1 [demoHandle 1]
            wq := { waiters := [] }, closed := [], nextChan := 0
            held := [(0, demoHandle 0)], parked := []
            log := [.acquired 0 (demoHandle 0)] } (fun _ => none)).2.1,
          e.2.producerID ≠ pd.producerID)) :=
  ⟨by decide,
   (close_touches_idle_only demoEnv [.WithInitCapacity 2, .WithMaxCapacity 2]
      (demoPool 2 2 0 0 2 [demoHandle 0, demoHandle 1]) [.get 0]
      { pool := demoPool 2 2 1 0 1 [demoHandle 1]
        wq := { waiters := [] }, closed := [], nextChan := 0
        held := [(0, demoHandle 0)], parked := []
        log := [.acquired 0 (demoHandle 0)] } (fun _ => none)
      rfl (by decide) (by decide)).1,
   (close_touches_idle_only demoEnv [.WithInitCapacity 2, .WithMaxCapacity 2]
      (demoPool 2 2 0 0 2 [demoHandle 0, demoHandle 1]) [.get 0]
      { pool := demoPool 2 2 1 0 1 [demoHandle 1]
        wq := { waiters := [] }, closed := [], nextChan := 0
        held := [(0, demoHandle 0)], parked := []
        log := [.acquired 0 (demoHandle 0)] } (fun _ => none)
      rfl (by decide) (by decide)).2.1⟩

/-- C18: on every path of `GetConn`, whatever the goroutine finds in the pool at
its call and at each of its wake-ups (any number of passes through
`goto DoubleCheck`, a path that ends in a panic or stays blocked included),
`p.mu` is not held during `<-ch`, is held at every read and write of
`producers`, `idling`, `running` and `waiting`, is never locked while held nor
unlocked while not held, is held at each `return` so that the deferred unlock
releases a held mutex, and is unlocked as often as it was locked. -/
theorem getconn_lock_discipline (o : Obs) (wakes : List Obs) :
    wellLocked false (GetConn.lockTrace o wakes) = true ∧
    (GetConn.lockTrace o wakes).count .lock
      = (GetConn.lockTrace o wakes).count .unlock := by
  constructor
  · unfold GetConn.lockTrace
    simp only [wellLocked, Bool.not_false, Bool.true_and]
    exact wellLocked_DoubleCheckEvs wakes o
  · unfold GetConn.lockTrace
    have e1 : (LockEv.lock == LockEv.lock) = true := by decide
    have e2 : (LockEv.lock == LockEv.unlock) = false := by decide
    rw [List.count_cons, List.count_cons, count_DoubleCheckEvs wakes o]
    simp only [e1, e2, if_true, Bool.false_eq_true, if_false, Nat.add_zero]

/-- C19 (the code breaks it): on the pool with one handle, after a hand-off
from caller 0 to the parked caller 1, `idling = 1` and the idle list is empty;
the next `GetConn`, by caller 2, passes the test on `idling` and reads
`p.producers[0]` out of range. -/
theorem fast_path_reads_empty_list :
    run (Sys.init (demoPool 1 1 0 0 1 [demoHandle 0]))
        [.get 0, .get 1, .put 0 (demoHandle 0), .wake 1]
      = .ok { pool := demoPool 1 1 1 0 1 []
              wq := { waiters := [] }, closed := [0], nextChan := 1
              held := [(1, demoHandle 0)], parked := []
              log := [.acquired 0 (demoHandle 0), .blocked 1 0,
                      .released 0 (demoHandle 0), .claimed 1 (demoHandle 0)] } ∧
    GetConn (demoPool 1 1 1 0 1 []) { waiters := [] } 1 = .panic ∧
    run (Sys.init (demoPool 1 1 0 0 1 [demoHandle 0]))
        [.get 0, .get 1, .put 0 (demoHandle 0), .wake 1, .get 2]
      = .panic := by
  refine ⟨by decide, by decide, by decide⟩

end Kfkp
